import Mathlib

/-!
Shallow embedding of the `odm` module (`odm/__init__.py`, `odm/data_types.py`)
of the mongo-odm repository, together with theorems checking the
natural-language specification's claims against it.

Python dictionaries are modelled as insertion-ordered association lists
(`Dict`), Python runtime values as the inductive `Val`, Python exceptions as
the inductive `PyErr` (functions that can raise return `Except PyErr _`).
The database driver is external to the repository; its round-trip results
enter the embedded operations as explicit oracle arguments.
-/

set_option maxRecDepth 4000
set_option linter.unusedTactic false
set_option linter.unnecessarySimpa false

namespace Odm

/-- Python exception kinds that the embedded code can raise. -/
inductive PyErr where
  | invalidId      -- bson.errors.InvalidId
  | notImplementedErr
  | typeError
  | valueError
  | attributeError
  | keyError
  | unboundLocal   -- UnboundLocalError: local variable referenced before assignment
deriving Repr, DecidableEq

/-- Naive datetime (no timezone, no microseconds), as produced by
`datetime.strptime(s[:19], "%Y-%m-%dT%H:%M:%S")` and `datetime.utcnow()`. -/
structure DT where
  year : Nat
  month : Nat
  day : Nat
  hour : Nat
  minute : Nat
  second : Nat
deriving Repr, DecidableEq

/-- Python runtime values appearing in the odm module.  A bson `ObjectId`
carries its canonical (lowercase hex) 24-character string; `str()` of an
`ObjectId` returns exactly that string. -/
inductive Val where
  | vNone
  | vBool (b : Bool)
  | vInt (n : Int)
  | vFloat (n : Int)      -- floats; only integral floats arise in the claims
  | vStr (s : String)
  | vOid (s : String)     -- bson ObjectId, canonical lowercase-hex form
  | vDate (d : DT)        -- datetime instance
  | vList (xs : List Val)
  | vDict (kvs : List (String × Val))

/-- A Python dict: insertion-ordered key/value list. -/
abbrev Dict := List (String × Val)

/-- `d.get(k)`: first binding wins (in a real Python dict keys are unique). -/
def dget {α : Type} (d : List (String × α)) (k : String) : Option α :=
  match d with
  | [] => none
  | (k', v) :: rest => if k' = k then some v else dget rest k

/-- `d[k] = v`: overwrite in place if the key exists, else append. -/
def dset {α : Type} (d : List (String × α)) (k : String) (v : α) : List (String × α) :=
  match d with
  | [] => [(k, v)]
  | (k', v') :: rest => if k' = k then (k, v) :: rest else (k', v') :: dset rest k v

/-- `del d[k]` (ignoring the `KeyError` on absence; callers check). -/
def ddel {α : Type} (d : List (String × α)) (k : String) : List (String × α) :=
  match d with
  | [] => []
  | (k', v') :: rest => if k' = k then rest else (k', v') :: ddel rest k

/-- `k in d` for a dict. -/
def dhas {α : Type} (d : List (String × α)) (k : String) : Bool :=
  (dget d k).isSome

/-- The ordered list of a dict's keys. -/
def dkeys {α : Type} (d : List (String × α)) : List String := d.map Prod.fst

/-- `params.get(k)` as the Python expression evaluates: `None` when absent. -/
def pget (d : Dict) (k : String) : Val :=
  (dget d k).getD .vNone

/-- Python truthiness of a value. -/
def pyTruthy : Val → Bool
  | .vNone => false
  | .vBool b => b
  | .vInt n => n ≠ 0
  | .vFloat n => n ≠ 0
  | .vStr s => s ≠ ""
  | .vOid _ => true
  | .vDate _ => true
  | .vList xs => !xs.isEmpty
  | .vDict kvs => !kvs.isEmpty

/-- ASCII lowercasing, as Python `str.lower` acts on hex-digit strings. -/
def asciiLower (s : String) : String :=
  ⟨s.data.map (fun c => if 'A' ≤ c ∧ c ≤ 'Z' then Char.ofNat (c.toNat + 32) else c)⟩

def isHexDigitChar (c : Char) : Bool :=
  c.isDigit || ('a' ≤ c && c ≤ 'f') || ('A' ≤ c && c ≤ 'F')

/-- A syntactically valid 24-character hex ObjectId string (what
`bson.ObjectId(oid)` accepts for string input). -/
def validOidString (s : String) : Bool :=
  s.data.length == 24 && s.data.all isHexDigitChar

/-- `bson.ObjectId(param)`: parses a valid 24-hex string (case-insensitively,
the stored value being the canonical lowercase form that `str()` later
returns), passes an existing ObjectId through, and raises on anything else. -/
def pyObjectId (v : Val) : Except PyErr Val :=
  match v with
  | .vStr s => if validOidString s then .ok (.vOid (asciiLower s)) else .error .invalidId
  | .vOid s => .ok (.vOid s)
  | _ => .error .invalidId

def pad (width : Nat) (n : Nat) : String :=
  let s := toString n
  String.mk (List.replicate (width - s.length) '0') ++ s

/-- `datetime.isoformat()` for a microsecond-free datetime. -/
def DT.isoformat (d : DT) : String :=
  pad 4 d.year ++ "-" ++ pad 2 d.month ++ "-" ++ pad 2 d.day ++ "T" ++
    pad 2 d.hour ++ ":" ++ pad 2 d.minute ++ ":" ++ pad 2 d.second

def digitVal (c : Char) : Nat := c.toNat - '0'.toNat

def digitsToNat (cs : List Char) : Nat :=
  cs.foldl (fun a c => 10 * a + digitVal c) 0

/-- Models `datetime.strptime(s[:19], "%Y-%m-%dT%H:%M:%S")`: the first 19
characters must be a fixed-width timestamp (the day-of-month bound is
approximated as 1..31 rather than the exact calendar length). -/
def strptime19 (s : String) : Except PyErr DT :=
  match s.data.take 19 with
  | [y1, y2, y3, y4, '-', m1, m2, '-', d1, d2, 'T', h1, h2, ':', n1, n2, ':', s1, s2] =>
    if [y1, y2, y3, y4, m1, m2, d1, d2, h1, h2, n1, n2, s1, s2].all Char.isDigit then
      let mo := digitsToNat [m1, m2]
      let dy := digitsToNat [d1, d2]
      let hr := digitsToNat [h1, h2]
      let mi := digitsToNat [n1, n2]
      let se := digitsToNat [s1, s2]
      if 1 ≤ mo ∧ mo ≤ 12 ∧ 1 ≤ dy ∧ dy ≤ 31 ∧ hr ≤ 23 ∧ mi ≤ 59 ∧ se ≤ 59 then
        .ok ⟨digitsToNat [y1, y2, y3, y4], mo, dy, hr, mi, se⟩
      else .error .valueError
    else .error .valueError
  | _ => .error .valueError

/-- `int(x)` for the value shapes reachable in this code (string parsing is
restricted to optionally signed decimal literals). -/
def pyInt (v : Val) : Except PyErr Int :=
  match v with
  | .vInt n => .ok n
  | .vBool b => .ok (if b then 1 else 0)
  | .vFloat n => .ok n
  | .vStr s =>
    let t := (s.data.dropWhile Char.isWhitespace).reverse.dropWhile Char.isWhitespace
    let (sign, digits) :=
      match t.reverse with
      | '-' :: rest => ((-1 : Int), rest)
      | '+' :: rest => ((1 : Int), rest)
      | cs => ((1 : Int), cs)
    if digits ≠ [] ∧ digits.all Char.isDigit then
      .ok (sign * (digitsToNat digits : Int))
    else .error .valueError
  | _ => .error .typeError

/-- `float(x)` for the value shapes reachable here (only integral values and
integral strings arise; genuine decimals never occur in the claims). -/
def pyFloat (v : Val) : Except PyErr Val :=
  match v with
  | .vFloat n => .ok (.vFloat n)
  | .vInt n => .ok (.vFloat n)
  | .vBool b => .ok (.vFloat (if b then 1 else 0))
  | .vStr s => (pyInt (.vStr s)).map .vFloat
  | _ => .error .typeError

/-- `str(x)` for scalar values (container reprs are elided: no claim reaches
`str` on a list or dict, and the filter code only applies it to scalars). -/
def pyStr (v : Val) : String :=
  match v with
  | .vNone => "None"
  | .vBool b => if b then "True" else "False"
  | .vInt n => toString n
  | .vFloat n => toString n ++ ".0"
  | .vStr s => s
  | .vOid s => s
  | .vDate d => pad 4 d.year ++ "-" ++ pad 2 d.month ++ "-" ++ pad 2 d.day ++ " " ++
      pad 2 d.hour ++ ":" ++ pad 2 d.minute ++ ":" ++ pad 2 d.second
  | .vList _ => "[...]"
  | .vDict _ => "{...}"

def charsStartWith (hay needle : List Char) : Bool :=
  match hay, needle with
  | _, [] => true
  | [], _ :: _ => false
  | h :: t, n :: ns => h == n && charsStartWith t ns

def charsContain (hay needle : List Char) : Bool :=
  match hay with
  | [] => needle.isEmpty
  | _ :: t => charsStartWith hay needle || charsContain t needle

/-- Python `needle in hay` for strings: substring containment. -/
def strContainsSub (hay needle : String) : Bool :=
  charsContain hay.data needle.data

/-- Python `"$regex" in param`, as used in the `String` branch of `filter`:
substring test on strings, key test on dicts, membership on lists, and a
`TypeError` on non-container scalars. -/
def pyInRegex (param : Val) : Except PyErr Bool :=
  match param with
  | .vStr s => .ok (strContainsSub s "$regex")
  | .vDict d => .ok (dhas d "$regex")
  | .vList xs => .ok (xs.any fun v => match v with | .vStr s => s = "$regex" | _ => false)
  | _ => .error .typeError

def splitCommaChars (cs : List Char) (cur : List Char) : List String :=
  match cs with
  | [] => [String.mk cur.reverse]
  | c :: rest =>
    if c = ',' then String.mk cur.reverse :: splitCommaChars rest []
    else splitCommaChars rest (c :: cur)

/-- Python `s.split(',')`. -/
def pySplitComma (s : String) : List String :=
  splitCommaChars s.data []

/-- Stable insertion sort on strings, modelling `list.sort()`. -/
def insortStr (x : String) : List String → List String
  | [] => [x]
  | y :: ys => if x ≤ y then x :: y :: ys else y :: insortStr x ys

def pySortStrs (xs : List String) : List String :=
  xs.foldr insortStr []

theorem dget_dset_self {α : Type} (d : List (String × α)) (k : String) (v : α) :
    dget (dset d k v) k = some v := by
  induction d with
  | nil => simp [dset, dget]
  | cons hd tl ih =>
    obtain ⟨k', v'⟩ := hd
    by_cases h : k' = k <;> simp [dset, dget, h, ih]

theorem dget_dset_other {α : Type} (d : List (String × α)) (k k' : String) (v : α)
    (h : k ≠ k') : dget (dset d k v) k' = dget d k' := by
  induction d with
  | nil => simp [dset, dget, h]
  | cons hd tl ih =>
    obtain ⟨k0, v0⟩ := hd
    by_cases h0 : k0 = k
    · subst h0
      simp [dset, dget, h]
    · simp [dset, dget, h0, ih]

/-- The semantic field types of `odm.data_types.Types`. -/
inductive FieldType where
  | tString | tISODate | tInteger | tDouble | tObject | tArray | tObjectId | tBoolean
deriving Repr, DecidableEq

/-- The relation kinds of `odm.data_types.Relations`. -/
inductive RelKind where
  | hasMany | hasOne | belongsToMany | belongsTo | manyToMany
deriving Repr, DecidableEq

end Odm

/- A `BaseModel` subclass instance (post-`__init__` state), mutually with its
relation descriptors.  A relation descriptor carries the already-instantiated
related model (the source's `relations[name]["model"]` factory applied to the
db handle), so model graphs are embedded to finite depth. -/
mutual
inductive Odm.Model where
  | mk : (fields : List (String × Odm.FieldType)) →
      (relations : List (String × Odm.RelDesc)) →
      (protected_fields : List String) → (softDeletes : Bool) →
      (collection_name : String) → Odm.Model

inductive Odm.RelDesc where
  | mk : (rtype : Odm.RelKind) → (relatedModel : Odm.Model) → (localKey : String) →
      (foreignKey : String) → (joinCollection : String) → (localJoinKey : String) →
      (foreignJoinKey : String) → (cascade : List String) →
      (softDeletesFlag : Option Odm.Val) → Odm.RelDesc
end

namespace Odm

def Model.fields : Model → List (String × FieldType)
  | .mk f _ _ _ _ => f

def Model.relations : Model → List (String × RelDesc)
  | .mk _ r _ _ _ => r

def Model.protected_fields : Model → List String
  | .mk _ _ p _ _ => p

def Model.softDeletes : Model → Bool
  | .mk _ _ _ s _ => s

def Model.collection_name : Model → String
  | .mk _ _ _ _ c => c

def RelDesc.rtype : RelDesc → RelKind
  | .mk t _ _ _ _ _ _ _ _ => t

def RelDesc.relatedModel : RelDesc → Model
  | .mk _ m _ _ _ _ _ _ _ => m

def RelDesc.localKey : RelDesc → String
  | .mk _ _ lk _ _ _ _ _ _ => lk

def RelDesc.foreignKey : RelDesc → String
  | .mk _ _ _ fk _ _ _ _ _ => fk

def RelDesc.joinCollection : RelDesc → String
  | .mk _ _ _ _ jc _ _ _ _ => jc

def RelDesc.localJoinKey : RelDesc → String
  | .mk _ _ _ _ _ ljk _ _ _ => ljk

def RelDesc.foreignJoinKey : RelDesc → String
  | .mk _ _ _ _ _ _ fjk _ _ => fjk

def RelDesc.cascade : RelDesc → List String
  | .mk _ _ _ _ _ _ _ c _ => c

def RelDesc.softDeletesFlag : RelDesc → Option Val
  | .mk _ _ _ _ _ _ _ _ s => s

/-- The dict built by `for field in s.split(','): sort[field] = dir`. -/
def sortFromFields (s : String) (dir : Int) : Dict :=
  (pySplitComma s).foldl (fun d f => dset d f (.vInt dir)) []

/-- `BaseModel.sort_query(params)` (the mapping; the `tuples=True` variant
returns the same bindings as an ordered pair list, which coincides with this
association list).  The three `if` blocks each overwrite `sort`, and the
final comprehension copies a dict-valued `sort` (a non-dict leftover value
fails there, modelled as a `typeError`). -/
def sort_query (params : Dict) : Except PyErr Dict := do
  let sortA : Option Val ←
    if pyTruthy (pget params "sort_asc") then
      match pget params "sort_asc" with
      | .vStr s => pure (some (.vDict (sortFromFields s 1)))
      | _ => .error .attributeError
    else pure none
  let sortB : Option Val ←
    if pyTruthy (pget params "sort_desc") then
      match pget params "sort_desc" with
      | .vStr s => pure (some (.vDict (sortFromFields s (-1))))
      | _ => .error .attributeError
    else pure sortA
  let sortC : Option Val :=
    if pyTruthy (pget params "sort") then
      match pyInt (pget params "sort") with
      | .ok n => some (.vDict [("_id", .vInt n)])
      | .error _ => some (pget params "sort")
    else sortB
  match sortC with
  | none => pure [("_id", .vInt 1)]
  | some (.vDict d) => pure (d.foldl (fun q kv => dset q kv.1 kv.2) [])
  | some _ => .error .typeError

/-- One iteration of the `for name in params` loop of `BaseModel.filter`:
how a single `name`/`param` entry updates the query under construction. -/
def filterStep (fields : List (String × FieldType)) (name : String) (param : Val)
    (query : Dict) : Except PyErr Dict :=
      match dget fields name with
      | some ft =>
        match ft with
        | .tObjectId =>
          match param with
          | .vStr s => do
            let o ← pyObjectId (.vStr s)
            pure (dset query name o)
          | .vDict d =>
            if pyTruthy ((dget d "$in").getD .vNone) then
              match dget d "$in" with
              | some (.vList xs) => do
                let xs' ← xs.mapM pyObjectId
                pure (dset query name (.vDict (dset d "$in" (.vList xs'))))
              | some (.vStr _) => .error .invalidId
              | some _ => .error .typeError
              | none => .error .keyError
            else pure query
          | _ => .error .notImplementedErr
        | .tISODate =>
          match param with
          | .vStr s => do
            let d ← strptime19 s
            pure (dset query name (.vDate d))
          | _ => pure (dset query name param)
        | .tObject => pure (dset query name param)
        | .tArray => pure (dset query name param)
        | .tInteger =>
          match param with
          | .vInt n => pure (dset query name (.vInt n))
          | .vBool b => pure (dset query name (.vInt (if b then 1 else 0)))
          | _ => pure (dset query name param)
        | .tDouble => do
          let f ← pyFloat param
          pure (dset query name f)
        | .tBoolean => pure (dset query name param)
        | .tString => do
          let hasRegex ← pyInRegex param
          if hasRegex then pure (dset query name param)
          else
            pure (dset query name
              (.vDict [("$regex", .vStr (".*" ++ pyStr param ++ ".*")),
                       ("$options", .vStr "ig")]))
      | none =>
        if name ∈ ["sort", "sort_asc", "sort_desc", "page", "page_size"] then
          pure query
        else pure (dset query name param)

/-- The `for name in params` loop of `BaseModel.filter`, folded over all
entries. -/
def filterLoop (fields : List (String × FieldType)) (entries : Dict) (query : Dict) :
    Except PyErr Dict :=
  match entries with
  | [] => .ok query
  | (name, param) :: rest => do
    let query' ← filterStep fields name param query
    filterLoop fields rest query'

/-- `BaseModel.filter(params)`.  `fields = self.fields` aliases the instance
attribute, so the two timestamp insertions mutate the model's registry: the
returned pair carries both the query and the updated model. -/
def filter (m : Model) (params : Dict) : Except PyErr (Dict × Model) := do
  let fields := dset (dset m.fields "created_at" .tISODate) "updated_at" .tISODate
  let q ← filterLoop fields params []
  let q := if pyTruthy (pget params "$or") then dset q "$or" (pget params "$or") else q
  pure (q, .mk fields m.relations m.protected_fields m.softDeletes m.collection_name)

/-- The `for name in self.fields` loop of `BaseModel.preparse_fields`. -/
def preparseLoop (fields : List (String × FieldType)) (params : Dict) (query : Dict) :
    Except PyErr Dict :=
  match fields with
  | [] => .ok query
  | (name, ft) :: rest =>
    match dget params name with
    | none => preparseLoop rest params query
    | some .vNone => preparseLoop rest params query
    | some param => do
      let query' ←
        match ft with
        | .tObjectId => do
          let o ← pyObjectId param
          pure (dset query name o)
        | .tISODate =>
          match param with
          | .vStr s => do
            let d ← strptime19 s
            pure (dset query name (.vDate d))
          | _ => .error .typeError
        | .tObject => pure (dset query name param)
        | .tArray => pure (dset query name param)
        | .tInteger => do
          let n ← pyInt param
          pure (dset query name (.vInt n))
        | .tDouble => do
          let f ← pyFloat param
          pure (dset query name f)
        | .tBoolean => pure (dset query name param)
        | .tString => pure (dset query name (.vStr (pyStr param)))
      preparseLoop rest params query'

/-- `BaseModel.preparse_fields(params)`: only declared fields present and
non-`None` in the input are coerced; the registry is read, not changed. -/
def preparse_fields (m : Model) (params : Dict) : Except PyErr Dict :=
  preparseLoop m.fields params []

end Odm

namespace Odm

/-- Per-field storage→wire coercion of `BaseModel.dict_rep`. -/
def dictRepField (ft : FieldType) (param : Val) : Except PyErr Val :=
  match ft with
  | .tObjectId => .ok (.vStr (pyStr param))
  | .tISODate =>
    match param with
    | .vDate d => .ok (.vStr (d.isoformat ++ "Z"))
    | _ => .error .attributeError
  | .tObject => .ok param
  | .tArray => .ok param
  | .tInteger => (pyInt param).map .vInt
  | .tDouble => pyFloat param
  | .tBoolean => .ok param
  | .tString => .ok (.vStr (pyStr param))

/-- The `for name in fields` loop of `BaseModel.dict_rep`. -/
def dictRepFields (fields : List (String × FieldType)) (params : Dict) (query : Dict) :
    Except PyErr Dict :=
  match fields with
  | [] => .ok query
  | (name, ft) :: rest =>
    match dget params name with
    | none => dictRepFields rest params query
    | some .vNone => dictRepFields rest params query
    | some param =>
      match dictRepField ft param with
      | .error e => .error e
      | .ok v => dictRepFields rest params (dset query name v)

end Odm

mutual

/-- `BaseModel.dict_rep(params)`.  Like `filter`, the `fields =
self.fields` alias plus the two timestamp insertions mutate the registry, so
the updated model is returned alongside the result. -/
def Odm.dict_rep (m : Odm.Model) (params : Odm.Dict) :
    Except Odm.PyErr (Odm.Dict × Odm.Model) :=
  match m with
  | .mk fields0 rels prot sd coll =>
    let fields := Odm.dset (Odm.dset fields0 "created_at" .tISODate) "updated_at" .tISODate
    match Odm.dictRepFields fields params [] with
    | .error e => .error e
    | .ok q =>
      match Odm.dictRepRels rels params q with
      | .error e => .error e
      | .ok q2 => .ok (q2, .mk fields rels prot sd coll)
termination_by (sizeOf m, 0)

/-- The `for name in self.relations` loop of `dict_rep`: list-shaped relation
kinds recurse per element, scalar-shaped ones recurse once; the related model
is a fresh factory instance, so its own registry mutation is discarded. -/
def Odm.dictRepRels (rels : List (String × Odm.RelDesc)) (params : Odm.Dict)
    (query : Odm.Dict) : Except Odm.PyErr Odm.Dict :=
  match rels with
  | [] => .ok query
  | (name, .mk rt rm _ _ _ _ _ _ _) :: rest =>
    match Odm.dget params name with
    | none => Odm.dictRepRels rest params query
    | some .vNone => Odm.dictRepRels rest params query
    | some pv =>
      if rt = .hasMany ∨ rt = .belongsToMany ∨ rt = .manyToMany then
        match pv with
        | .vList items =>
          match Odm.dictRepItems rm items with
          | .error e => .error e
          | .ok outs => Odm.dictRepRels rest params (Odm.dset query name (.vList outs))
        | _ => .error .typeError
      else
        match pv with
        | .vDict d =>
          match Odm.dict_rep rm d with
          | .error e => .error e
          | .ok (out, _) => Odm.dictRepRels rest params (Odm.dset query name (.vDict out))
        | _ => .error .attributeError
termination_by (sizeOf rels, 0)

/-- The `for k, item in enumerate(items)` inner loop of `dict_rep`. -/
def Odm.dictRepItems (rm : Odm.Model) (items : List Odm.Val) :
    Except Odm.PyErr (List Odm.Val) :=
  match items with
  | [] => .ok []
  | it :: rest =>
    match it with
    | .vDict d =>
      match Odm.dict_rep rm d with
      | .error e => .error e
      | .ok (out, _) =>
        match Odm.dictRepItems rm rest with
        | .error e => .error e
        | .ok outs => .ok (.vDict out :: outs)
    | _ => .error .attributeError
termination_by (sizeOf rm + 1, sizeOf items)

end

namespace Odm

/-- The protected-field deletion loop of `clean_protected_fields` on a single
record: `del result[p]` when present, non-`None`, and not whitelisted. -/
def cleanDict (prot : List String) (d : Dict) (ffpf : List String) : Dict :=
  prot.foldl (fun acc p =>
    if (match dget acc p with
        | some .vNone => false
        | some _ => true
        | none => false) && !(ffpf.contains p)
    then ddel acc p else acc) d

end Odm

mutual

/-- `BaseModel.clean_protected_fields(model, result, ffpf)`: recurses over
lists, strips protected fields from dicts; a scalar only raises when the
protected-field loop actually dereferences it. -/
def Odm.clean_protected_fields (model : Odm.Model) (result : Odm.Val)
    (ffpf : List String) : Except Odm.PyErr Odm.Val :=
  match result with
  | .vList xs => (Odm.cleanValList model xs ffpf).map .vList
  | .vDict d => .ok (.vDict (Odm.cleanDict model.protected_fields d ffpf))
  | other => if model.protected_fields.isEmpty then .ok other else .error .attributeError

def Odm.cleanValList (model : Odm.Model) (xs : List Odm.Val) (ffpf : List String) :
    Except Odm.PyErr (List Odm.Val) :=
  match xs with
  | [] => .ok []
  | x :: rest =>
    match Odm.clean_protected_fields model x ffpf with
    | .error e => .error e
    | .ok x' =>
      match Odm.cleanValList model rest ffpf with
      | .error e => .error e
      | .ok rest' => .ok (x' :: rest')

end

namespace Odm

/-- The `$project` dict built by `relationships` before the relation loop:
every declared field mapped to `True`, then protected non-whitelisted keys
deleted (iterating over a copy, as the source does). -/
def projFields (m : Model) (ffpf : List String) : Dict :=
  let p0 : Dict := m.fields.foldl (fun p kv => dset p kv.1 (.vBool true)) []
  (dkeys p0).foldl
    (fun p k => if m.protected_fields.contains k && !(ffpf.contains k) then ddel p k else p)
    p0

/-- The pipeline stages and projection entry contributed by one requested
relation in the `for i in self.relations` loop of `relationships`. -/
def relStageFor (i : String) (rd : RelDesc) (proj : Dict) : List Val × Dict :=
  match rd with
  | .mk rt rm lk fk jc ljk fjk _ _ =>
    let stages :=
      if rt = .manyToMany then
        let lookup1 := Val.vDict [("$lookup", .vDict
          [("from", .vStr jc), ("localField", .vStr lk),
           ("foreignField", .vStr ljk), ("as", .vStr i)])]
        let unwind := Val.vDict [("$unwind", .vDict
          [("path", .vStr ("$" ++ i)), ("preserveNullAndEmptyArrays", .vBool true)])]
        let lookup2 := Val.vDict [("$lookup", .vDict
          [("from", .vStr rm.collection_name), ("localField", .vStr (i ++ "." ++ fjk)),
           ("foreignField", .vStr fk), ("as", .vStr i)])]
        let group0 : Dict := [("_id", .vStr "$_id"), (i, .vDict [("$push", .vStr ("$" ++ i))])]
        let group := (dkeys proj).foldl
          (fun g k => if k ≠ "_id" then dset g k (.vDict [("$first", .vStr ("$" ++ k))]) else g)
          group0
        [lookup1, unwind, lookup2, unwind, Val.vDict [("$group", .vDict group)]]
      else
        [Val.vDict [("$lookup", .vDict
          [("from", .vStr rm.collection_name), ("localField", .vStr lk),
           ("foreignField", .vStr fk), ("as", .vStr i)])]]
    let softFilter := Val.vDict [("$filter", .vDict
      [("input", .vStr ("$" ++ i)), ("as", .vStr i),
       ("cond", .vDict [("$ifNull", .vList [.vStr ("$$" ++ i ++ ".deleted_at"), .vBool true])])])]
    let proj2 :=
      if rt = .belongsTo ∨ rt = .hasOne then
        dset proj i (.vDict [("$arrayElemAt", .vList [.vStr ("$" ++ i), .vInt 0])])
      else
        dset proj i softFilter
    (stages, proj2)

/-- The relation loop of `relationships`, accumulating lookup stages and
projection entries for the requested relation names. -/
def relLoop (rels : List (String × RelDesc)) (keys : List String) (proj : Dict) :
    List Val × Dict :=
  match rels with
  | [] => ([], proj)
  | (i, rd) :: rest =>
    if keys.contains i then
      let (st, proj2) := relStageFor i rd proj
      let (strest, proj3) := relLoop rest keys proj2
      (st ++ strest, proj3)
    else relLoop rest keys proj

/-- `BaseModel.relationships(criteria, key_array, ffpf, pagination)`: the
synthesized aggregation pipeline.  `key_array.sort()` happens first (the
`the_keys`/`tgt` scaffolding in the source is dead code); stage order is
match, then sort/skip/limit when a pagination dict is supplied, then the
per-relation stages, then the projection, then a trailing sort when the
pagination dict carries a truthy `sort`. -/
def relationships (m : Model) (criteria : Dict) (keyArray : List String)
    (ffpf : List String) (pagination : Dict) : Except PyErr (List Val) := do
  let keys := pySortStrs keyArray
  let matchStage := Val.vDict [("$match", .vDict criteria)]
  let pagStages ←
    if pagination.isEmpty then pure []
    else do
      let s ← match dget pagination "sort" with
        | some v => pure v
        | none => .error .keyError
      let ps ← match dget pagination "page_size" with
        | some v => pure v
        | none => .error .keyError
      let pg ← match dget pagination "page" with
        | some v => pure v
        | none => .error .keyError
      let skip ← match ps, pg with
        | .vInt a, .vInt b => pure (Val.vInt (a * b))
        | _, _ => .error .typeError
      pure [Val.vDict [("$sort", s)], .vDict [("$skip", skip)], .vDict [("$limit", ps)]]
  let proj0 := projFields m ffpf
  let (relStages, projF) := relLoop m.relations keys proj0
  let projStage := Val.vDict [("$project", .vDict projF)]
  let finalSort :=
    if pyTruthy (pget pagination "sort") then [Val.vDict [("$sort", pget pagination "sort")]]
    else []
  pure ([matchStage] ++ pagStages ++ relStages ++ [projStage] ++ finalSort)

/-- The per-relation cleanup applied (to the first result only) inside the
result loop of `find`/`paged`. -/
def cleanRels (rels : List (String × RelDesc)) (ffpf : List String) (r : Dict) :
    Except PyErr Dict :=
  match rels with
  | [] => .ok r
  | (key, rd) :: rest => do
    let r' ←
      match dget r key with
      | none => pure r
      | some .vNone => pure r
      | some (.vList vals) => do
        let vals' ← vals.mapM (fun v => clean_protected_fields rd.relatedModel v ffpf)
        pure (dset r key (.vList vals'))
      | some v => do
        let v' ← clean_protected_fields rd.relatedModel v ffpf
        pure (dset r key v')
    cleanRels rest ffpf r'

/-- `BaseModel.find(params, force_single_result, relations, ffpf)`.

The driver round trip is external: `docs` is the list of raw documents the
cursor yields for the compiled criteria (or pipeline).  The embedded function
performs everything the Python method does around that round trip, and
returns the final value together with the model (whose field registry
`filter` mutates).  `none` models Python's implicit `None` return. -/
def find (m : Model) (params : Dict) (force_single_result : Bool)
    (relations : List String) (ffpf : List String) (docs : List Val) :
    Except PyErr (Option Val × Model) := do
  let (criteria, m2) ← filter m params
  let criteria := dset criteria "deleted_at" (.vDict [("$exists", .vBool false)])
  if relations.isEmpty then do
    let _ ← sort_query params
    pure ()
  else do
    let sq ← sort_query params
    let ag ← relationships m2 criteria relations ffpf []
    let _ := ag.insertIdx 1 (Val.vDict [("$sort", .vDict sq)])
    pure ()
  let st ← docs.foldlM (fun (st : List Val × Model) doc =>
      match doc with
      | .vDict d => (dict_rep st.2 d).map (fun p => (st.1 ++ [Val.vDict p.1], p.2))
      | _ => .error .attributeError) (([] : List Val), m2)
  let (results, m3) := st
  match results with
  | [] => pure (none, m3)
  | _ :: _ => do
    let cleaned ← cleanValList m3 results ffpf
    match cleaned with
    | [] => pure (some (.vList []), m3)
    | c0 :: crest => do
      let c0' ←
        match c0 with
        | .vDict d => (cleanRels m3.relations ffpf d).map Val.vDict
        | other => if m3.relations.isEmpty then pure other else .error .attributeError
      if force_single_result then pure (some c0', m3)
      else pure (some (.vList (c0' :: crest)), m3)

/-- `BaseModel.first(params, relations)`. -/
def first (m : Model) (params : Dict) (relations : List String) (docs : List Val) :
    Except PyErr (Option Val × Model) :=
  find m params true relations [] docs

/-- `BaseModel.paginate(params)`. -/
def paginate (params : Dict) : Except PyErr Dict := do
  let sq ← sort_query params
  let page ← if pyTruthy (pget params "page") then pyInt (pget params "page") else pure 0
  let ps ← if pyTruthy (pget params "page_size") then pyInt (pget params "page_size") else pure 50
  pure [("sort", .vDict sq), ("page", .vInt page), ("page_size", .vInt ps)]

/-- `BaseModel.check_cascade_policy(cascade, cascade_policy)`. -/
def check_cascade_policy (cascade : List String) (cascade_policy : List String) : Bool :=
  cascade.foldl (fun acc i => if cascade_policy.contains i then true else acc) false

end Odm

namespace Odm

/-- Driver-side outcomes for one `save_collection` call: the results of the
three possible bulk `execute()` calls (`.error` = the driver raised) and the
documents yielded by the re-fetch cursor. -/
structure BulkDb where
  mainBulk : Except Unit Val
  delBulk : Except Unit Val
  insBulk : Except Unit Val
  fetchedDocs : List Val

/-- `BaseModel.save_collection(model, properti, relation, result_model)`.

The bulk operations batched on the driver are opaque; what the embedding
keeps is every computation the Python code performs while building them
(key lookups, ObjectId parses — these raise *outside* the try blocks), the
Python local `result` (`none` = still unbound), the bare `except` clauses
that swallow `execute()` failures, and the unconditional
`result["upserted"]` read that follows them. -/
def save_collection (model : Dict) (properti : String) (rd : RelDesc)
    (result_model : Dict) (now : DT) (db : BulkDb) : Except PyErr Dict := do
  match rd with
  | .mk rt _ lk fk _ _ _ _ _ => do
    let pv ← match dget model properti with
      | some v => pure v
      | none => .error .keyError
    -- first block: list-valued input, non-manyToMany relation
    let upserted : List Val ←
      match pv with
      | .vList items =>
        if rt ≠ .manyToMany then
          items.foldlM (fun (ups : List Val) item => do
            match item with
            | .vDict d => do
              let _ ← match dget result_model lk with
                | some v => pure v
                | none => .error .keyError
              if pyTruthy (pget d "_id") then do
                let o ← pyObjectId (pget d "_id")
                pure (ups ++ [o])
              else pure ups
            | _ => .error .typeError) []
        else pure []
      | _ => pure []
    -- second block: list-valued input, manyToMany relation (its two bulks
    -- assign the local `result` when they succeed)
    let result1 : Option Val ←
      match pv with
      | .vList items =>
        if rt = .manyToMany then do
          let lkv ← match dget result_model lk with
            | some v => pure v
            | none => .error .keyError
          let _ ← pyObjectId lkv
          let rDel : Option Val :=
            match db.delBulk with
            | .ok v => some v
            | .error _ => none
          let _ ← items.mapM (fun item => do
            match item with
            | .vDict d => do
              let _ ← pyObjectId lkv
              let fkv ← match dget d fk with
                | some v => pure v
                | none => .error .keyError
              let _ ← pyObjectId fkv
              pure ()
            | _ => .error .typeError)
          let rIns : Option Val :=
            match db.insBulk with
            | .ok v => some v
            | .error _ => rDel
          pure rIns
        else pure none
      | _ => pure none
    -- third block: dict-valued input
    let upserted ←
      match pv with
      | .vDict d =>
        if pyTruthy (pget d "_id") then do
          let o ← pyObjectId (pget d "_id")
          pure (upserted ++ [o])
        else pure upserted
      | _ => pure upserted
    -- try: result = bulk.execute()  except: print("Error writing bulk..")
    let result2 : Option Val :=
      match db.mainBulk with
      | .ok v => some v
      | .error _ => result1
    -- ops = [i["_id"] for i in result["upserted"]]
    let resultV ← match result2 with
      | none => .error .unboundLocal
      | some v => pure v
    let ups ← match resultV with
      | .vDict d =>
        match dget d "upserted" with
        | some v => pure v
        | none => .error .keyError
      | _ => .error .typeError
    let _ ← match ups with
      | .vList is => is.mapM (fun i =>
          match i with
          | .vDict d =>
            match dget d "_id" with
            | some v => pure v
            | none => .error .keyError
          | _ => .error .typeError)
      | _ => .error .typeError
    -- fetched = find({"_id": {"$in": upserted}}): the criteria built from
    -- `upserted` go to the driver; the yielded documents are the oracle's.
    let _ := (upserted, now)
    let wololo := db.fetchedDocs
    if rt = .belongsTo ∧ wololo.length > 0 then
      match wololo with
      | w0 :: _ => pure (dset result_model properti w0)
      | [] => .error .typeError
    else
      pure (dset result_model properti (.vList wololo))

/-- Driver-side outcomes for one `save` call: the `_id` returned by the
native `save`, and the bulk outcomes per cascaded relation name. -/
structure SaveDb where
  savedId : Val
  bulk : String → BulkDb

/-- `BaseModel.save(bus_object)`: coerce wire→storage, stamp timestamps,
write the parent (driver result `db.savedId`), cascade each declared relation
present in the input whose cascade policy matches, and return the wire
representation of the saved record. -/
def save (m : Model) (bus_object : Dict) (now : DT) (db : SaveDb) :
    Except PyErr Dict := do
  let to_save ← preparse_fields m bus_object
  let cascade_policy := if pyTruthy (pget bus_object "_id") then ["UPDATE"] else ["CREATE"]
  let to_save :=
    match dget to_save "_id" with
    | none => dset (dset to_save "created_at" (.vDate now)) "updated_at" (.vDate now)
    | some .vNone => dset (dset to_save "created_at" (.vDate now)) "updated_at" (.vDate now)
    | some _ => dset to_save "updated_at" (.vDate now)
  let to_save := dset to_save "_id" db.savedId
  let to_save ← m.relations.foldlM (fun ts kv =>
      if dhas bus_object kv.1 ∧ check_cascade_policy kv.2.cascade cascade_policy then
        save_collection bus_object kv.1 kv.2 ts now (db.bulk kv.1)
      else pure ts) to_save
  (dict_rep m to_save).map Prod.fst

/-- A write issued against the store by `remove`. -/
inductive WriteOp where
  | hardRemove (coll : String) (idv : Val)
  | updateSet (coll : String) (idv : Val) (payload : Dict)
  | joinRemove (coll : String) (flt : Dict)

/-- Write-logging error monad for `remove`: accumulates the store writes
issued so far, so that "fails before any write" is a provable statement. -/
def W (α : Type) : Type := List WriteOp → List WriteOp × Except PyErr α

def wPure {α : Type} (a : α) : W α := fun log => (log, .ok a)

def wBind {α β : Type} (x : W α) (f : α → W β) : W β := fun log =>
  match x log with
  | (log', .ok a) => f a log'
  | (log', .error e) => (log', .error e)

instance : Monad W where
  pure := wPure
  bind := wBind

def wErr {α : Type} (e : PyErr) : W α := fun log => (log, .error e)

def wLift {α : Type} (x : Except PyErr α) : W α := fun log => (log, x)

def wWrite (op : WriteOp) : W Unit := fun log => (log ++ [op], .ok ())

def wRun {α : Type} (x : W α) : List WriteOp × Except PyErr α := x []

/-- Driver-side outcomes for one `remove` call: documents yielded by the two
possible `first` fetches, and the results the driver returns for the write
calls. -/
structure RemoveDb where
  cascadeDocs : List Val
  mainDocs : List Val
  relRemoveRes : Val
  relUpdateRes : Val
  joinRemoveRes : Val
  hardRemoveRes : Val
  updateRes : Val

/-- The per-item soft/hard cascade deletion inside `remove` (shared by the
list-shaped and scalar-shaped branches). -/
def removeCascadeItem (m : Model) (collName : String) (sdFlag : Option Val)
    (item : Val) (now : DT) : W Unit := do
  match item with
  | .vDict d =>
    match sdFlag with
    | none => do
      -- `if not soft_delete_support or soft_delete_support is None:` hard path
      let idv ← match dget d "_id" with
        | some v => wPure v
        | none => wErr .keyError
      let o ← wLift (pyObjectId idv)
      wWrite (.hardRemove collName o)
    | some sd =>
      if !pyTruthy sd then do
        let idv ← match dget d "_id" with
          | some v => wPure v
          | none => wErr .keyError
        let o ← wLift (pyObjectId idv)
        wWrite (.hardRemove collName o)
      else do
        let cache_rel ← wLift (preparse_fields m d)
        let cache_rel := dset cache_rel "deleted_at" (.vDate now)
        let cache_rel ←
          if dhas cache_rel "_id" then wPure (ddel cache_rel "_id")
          else wErr .keyError
        let idv ← match dget d "_id" with
          | some v => wPure v
          | none => wErr .keyError
        let o ← wLift (pyObjectId idv)
        wWrite (.updateSet collName o cache_rel)
  | _ => wErr .typeError

/-- `BaseModel.remove(_id, force)`.  Cascade deletions run first for
relations whose policy includes DELETE; then the record itself is either
hard-removed (`softDeletes` off or `force`) or soft-deleted by fetching,
re-coercing, stamping `deleted_at`, stripping `_id` and issuing a `$set`
update.  Returns the driver's result for that final write. -/
def remove (m : Model) (idStr : String) (force : Bool) (now : DT) (db : RemoveDb) :
    W Val := do
  let related_models := m.relations.foldl (fun acc kv =>
      if check_cascade_policy kv.2.cascade ["DELETE"] then acc ++ [kv.1] else acc) []
  -- `self.first` inside the cascade branch mutates `self.fields`; the model
  -- seen by the rest of the call is threaded as `m2`.
  let m2 ←
    if !related_models.isEmpty then do
      let fr ← wLift (first m [("_id", .vStr idStr)] related_models db.cascadeDocs)
      let cache ← match fr.1 with
        | none => wErr .attributeError      -- None.get(...)
        | some (.vDict d) => wPure d
        | some _ => wErr .attributeError
      let _ ← related_models.mapM (fun name => do
        match dget m.relations name with
        | none => wErr .keyError
        | some rd =>
          match rd with
          | .mk rt rm _ _ jc ljk _ _ sdFlag => do
            let collName := rm.collection_name
            if pyTruthy (pget cache name) then
              if rt = .hasMany ∨ rt = .belongsToMany then
                match pget cache name with
                | .vList items => do
                  let _ ← items.mapM (fun item =>
                    removeCascadeItem fr.2 collName sdFlag item now)
                  wPure ()
                | _ => wErr .typeError
              else if rt = .manyToMany then do
                let idv ← match dget cache "_id" with
                  | some v => wPure v
                  | none => wErr .keyError
                let o ← wLift (pyObjectId idv)
                wWrite (.joinRemove jc [(ljk, o)])
              else
                removeCascadeItem fr.2 collName sdFlag (pget cache name) now
            else wPure ())
      wPure fr.2
    else wPure m
  if !m2.softDeletes ∨ force then do
    let o ← wLift (pyObjectId (.vStr idStr))
    wWrite (.hardRemove m2.collection_name o)
    wPure db.hardRemoveRes
  else do
    let fr ← wLift (first m2 [("_id", .vStr idStr)] [] db.mainDocs)
    let cache0 ← match fr.1 with
      | none => wErr .attributeError      -- preparse_fields(None) → None.get(...)
      | some (.vDict d) => wPure d
      | some _ => wErr .attributeError
    let cache_rel ← wLift (preparse_fields fr.2 cache0)
    let cache_rel := dset cache_rel "deleted_at" (.vDate now)
    let cache_rel ←
      if dhas cache_rel "_id" then wPure (ddel cache_rel "_id")
      else wErr .keyError
    let o ← wLift (pyObjectId (.vStr idStr))
    wWrite (.updateSet m2.collection_name o cache_rel)
    wPure db.updateRes

end Odm

namespace Odm

/-- MongoDB aggregation truthiness, as `$filter` coerces its `cond`: only
`false`, `null`, missing/undefined and numeric zero are falsy; strings,
dates (BSON timestamps), arrays and documents are all truthy. -/
def mongoTruthy : Val → Bool
  | .vNone => false
  | .vBool b => b
  | .vInt n => n ≠ 0
  | .vFloat n => n ≠ 0
  | _ => true

/-- `$ifNull` over a field's looked-up value: the value itself when present
and non-null, else the replacement. -/
def mongoIfNull (x : Option Val) (repl : Val) : Val :=
  match x with
  | none => repl
  | some .vNone => repl
  | some v => v

/-- Evaluation, against one array element, of the exact `cond` shape that
`relationships` emits for list relations: `{"$ifNull":
["$$<as>.deleted_at", True]}`. -/
def evalSoftDeleteCond (asName : String) (cond : Val) (elem : Dict) : Option Bool :=
  match cond with
  | .vDict [("$ifNull", .vList [.vStr path, repl])] =>
    if path = "$$" ++ asName ++ ".deleted_at" then
      some (mongoTruthy (mongoIfNull (dget elem "deleted_at") repl))
    else none
  | _ => none

/-- MongoDB `$filter` applied to a concrete array of documents under the
projection entry `relationships` emits: keeps exactly the elements whose
cond evaluates truthy.  `none` when the spec is not of the emitted shape. -/
def mongoApplySoftDeleteFilter (spec : Val) (xs : List Dict) : Option (List Dict) :=
  match spec with
  | .vDict [("$filter", .vDict [("input", .vStr _), ("as", .vStr a), ("cond", cond)])] =>
    xs.foldr (fun e acc =>
      match acc, evalSoftDeleteCond a cond e with
      | some rest, some true => some (e :: rest)
      | some rest, some false => some rest
      | _, _ => none) (some [])
  | _ => none

end Odm

namespace Odm

theorem except_bind_ok {α β : Type} (a : α) (f : α → Except PyErr β) :
    (Except.ok a >>= f) = f a := rfl

theorem except_bind_error {α β : Type} (e : PyErr) (f : α → Except PyErr β) :
    ((Except.error e : Except PyErr α) >>= f) = .error e := rfl

theorem except_bind_ok_iff {α β : Type} {x : Except PyErr α} {f : α → Except PyErr β}
    {b : β} : (x >>= f) = .ok b ↔ ∃ a, x = .ok a ∧ f a = .ok b := by
  cases x with
  | error e => simp [except_bind_error]
  | ok a => simp [except_bind_ok]

theorem dget_ddel_other {α : Type} (d : List (String × α)) (k k' : String) (h : k ≠ k') :
    dget (ddel d k) k' = dget d k' := by
  induction d with
  | nil => simp [ddel]
  | cons hd tl ih =>
    obtain ⟨k0, v0⟩ := hd
    by_cases h0 : k0 = k
    · subst h0
      simp [ddel, dget, h]
    · simp [ddel, dget, h0, ih]

theorem dset_of_dget_none {α : Type} (d : List (String × α)) (k : String) (v : α)
    (h : dget d k = none) : dset d k v = d ++ [(k, v)] := by
  induction d with
  | nil => simp [dset]
  | cons hd tl ih =>
    obtain ⟨k0, v0⟩ := hd
    by_cases h0 : k0 = k
    · simp [dget, h0] at h
    · simp [dget, h0] at h
      simp [dset, h0, ih h]

theorem dget_append_other {α : Type} (acc : List (String × α)) (k0 : String) (v0 : α)
    (k : String) (h : k0 ≠ k) : dget (acc ++ [(k0, v0)]) k = dget acc k := by
  induction acc with
  | nil => simp [dget, h]
  | cons a rest ih =>
    obtain ⟨ka, va⟩ := a
    by_cases hka : ka = k <;> simp [dget, hka, ih]

theorem dget_eq_none_of_not_mem {α : Type} (d : List (String × α)) (k : String)
    (h : k ∉ dkeys d) : dget d k = none := by
  induction d with
  | nil => rfl
  | cons hd tl ih =>
    obtain ⟨k0, v0⟩ := hd
    have h0 : k0 ≠ k := by
      intro he
      exact h (by simp [dkeys, he])
    have h1 : k ∉ dkeys tl := by
      intro hm
      exact h (by simp [dkeys]; right; simpa [dkeys] using hm)
    simp [dget, h0, ih h1]

/-- Copying a dict with unique keys via the comprehension-style fold
reproduces it. -/
theorem dict_copy_eq (d : Dict) (hnd : (dkeys d).Nodup) :
    d.foldl (fun q kv => dset q kv.1 kv.2) [] = d := by
  suffices h : ∀ acc : Dict, (∀ k ∈ dkeys d, dget acc k = none) →
      d.foldl (fun q kv => dset q kv.1 kv.2) acc = acc ++ d by
    simpa using h [] (by intro k _; rfl)
  induction d with
  | nil =>
    intro acc _
    simp
  | cons hd tl ih =>
    obtain ⟨k0, v0⟩ := hd
    intro acc hacc
    simp only [List.foldl_cons]
    rw [dset_of_dget_none acc k0 v0 (hacc k0 (by simp [dkeys]))]
    simp only [dkeys, List.map_cons, List.nodup_cons] at hnd
    rw [ih hnd.2 (acc ++ [(k0, v0)]) ?_]
    · simp
    · intro k hk
      have hk0 : k0 ≠ k := by
        intro he
        exact hnd.1 (he ▸ hk)
      rw [dget_append_other acc k0 v0 k hk0]
      refine hacc k ?_
      simp only [dkeys, List.map_cons, List.mem_cons]
      right
      exact hk

end Odm

namespace Odm

theorem except_pure_def {α : Type} (a : α) : (pure a : Except PyErr α) = .ok a := rfl

/-- A filter-loop step never writes to any key other than its own name. -/
theorem filterStep_other (fields : List (String × FieldType)) (name : String) (param : Val)
    (query q' : Dict) (k : String) (hne : name ≠ k)
    (h : filterStep fields name param query = .ok q') : dget q' k = dget query k := by
  unfold filterStep at h
  repeat' split at h
  all_goals
    try simp only [except_bind_ok_iff, except_pure_def, Except.ok.injEq] at h
  all_goals
    try (obtain ⟨a, ha, h⟩ := h)
  all_goals
    try split at h
  all_goals
    try simp only [except_pure_def, Except.ok.injEq] at h
  all_goals
    first
      | rfl
      | (exact dget_dset_other query name k _ hne)
      | (subst h; rfl)
      | (subst h; exact dget_dset_other query name k _ hne)

/-- A reserved, undeclared parameter name is skipped by the loop step. -/
theorem filterStep_reserved (fields : List (String × FieldType)) (name : String)
    (param : Val) (query : Dict) (hf : dget fields name = none)
    (hres : name ∈ ["sort", "sort_asc", "sort_desc", "page", "page_size"]) :
    filterStep fields name param query = .ok query := by
  unfold filterStep
  rw [hf]
  simp only [if_pos hres]
  rfl

/-- An undeclared, non-reserved parameter passes through verbatim. -/
theorem filterStep_undeclared (fields : List (String × FieldType)) (name : String)
    (param : Val) (query : Dict) (hf : dget fields name = none)
    (hres : name ∉ ["sort", "sort_asc", "sort_desc", "page", "page_size"]) :
    filterStep fields name param query = .ok (dset query name param) := by
  unfold filterStep
  rw [hf]
  simp only [if_neg hres]
  rfl

/-- A declared `String` field with a string value always compiles to the
case-insensitive substring regex, except for pass-through of values already
carrying `"$regex"`. -/
theorem filterStep_string (fields : List (String × FieldType)) (name : String)
    (s : String) (query : Dict) (hf : dget fields name = some .tString) :
    filterStep fields name (.vStr s) query =
      .ok (dset query name
        (if strContainsSub s "$regex" then .vStr s
         else .vDict [("$regex", .vStr (".*" ++ s ++ ".*")), ("$options", .vStr "ig")])) := by
  unfold filterStep
  rw [hf]
  cases hc : strContainsSub s "$regex" <;>
    simp [pyInRegex, hc, bind, Except.bind, pyStr] <;> rfl

/-- Keys not named by any entry are untouched by the whole loop. -/
theorem filterLoop_not_mem (fields : List (String × FieldType)) (entries : Dict)
    (q0 q : Dict) (k : String) (hk : k ∉ dkeys entries)
    (h : filterLoop fields entries q0 = .ok q) : dget q k = dget q0 k := by
  induction entries generalizing q0 with
  | nil =>
    unfold filterLoop at h
    cases h
    rfl
  | cons e rest ih =>
    obtain ⟨n, p⟩ := e
    have hn : n ≠ k := by
      intro he
      exact hk (by simp [dkeys, he])
    have hk2 : k ∉ dkeys rest := by
      intro hm
      exact hk (by simp [dkeys] at hm ⊢; right; exact hm)
    unfold filterLoop at h
    rw [except_bind_ok_iff] at h
    obtain ⟨q1, hs, h⟩ := h
    rw [ih q1 hk2 h, filterStep_other fields n p q0 q1 k hn hs]

/-- Reserved, undeclared keys are never present in the loop's output. -/
theorem filterLoop_reserved (fields : List (String × FieldType)) (entries : Dict)
    (q0 q : Dict) (k : String) (hf : dget fields k = none)
    (hres : k ∈ ["sort", "sort_asc", "sort_desc", "page", "page_size"])
    (h : filterLoop fields entries q0 = .ok q) : dget q k = dget q0 k := by
  induction entries generalizing q0 with
  | nil =>
    unfold filterLoop at h
    cases h
    rfl
  | cons e rest ih =>
    obtain ⟨n, p⟩ := e
    unfold filterLoop at h
    rw [except_bind_ok_iff] at h
    obtain ⟨q1, hs, h⟩ := h
    by_cases hn : n = k
    · subst hn
      rw [filterStep_reserved fields n p q0 hf hres] at hs
      cases hs
      exact ih q0 h
    · rw [ih q1 h, filterStep_other fields n p q0 q1 k hn hs]

/-- The value the loop leaves at a key is the one its unique entry's step
writes, for steps whose write is independent of the accumulated query. -/
theorem filterLoop_key_value (fields : List (String × FieldType)) (entries : Dict)
    (q0 q : Dict) (k : String) (v : Val) (w : Val)
    (hnd : (dkeys entries).Nodup)
    (hget : dget entries k = some v)
    (hstep : ∀ query q', filterStep fields k v query = .ok q' → dget q' k = some w)
    (h : filterLoop fields entries q0 = .ok q) :
    dget q k = some w := by
  induction entries generalizing q0 with
  | nil => cases hget
  | cons e rest ih =>
    obtain ⟨n, p⟩ := e
    simp only [dkeys, List.map_cons, List.nodup_cons] at hnd
    unfold filterLoop at h
    rw [except_bind_ok_iff] at h
    obtain ⟨q1, hs, h⟩ := h
    by_cases hn : n = k
    · subst hn
      have hp : p = v := by
        simp [dget] at hget
        exact hget
      subst hp
      have hq1 : dget q1 n = some w := hstep q0 q1 hs
      have hknr : n ∉ dkeys rest := by
        intro hm
        exact hnd.1 (by simpa [dkeys] using hm)
      rw [filterLoop_not_mem fields rest q1 q n hknr h, hq1]
    · have hget2 : dget rest k = some v := by
        simpa [dget, hn] using hget
      exact ih q1 hnd.2 hget2 h

end Odm

namespace Odm

theorem dget_fields_aug (fields : List (String × FieldType)) (k : String)
    (h1 : k ≠ "created_at") (h2 : k ≠ "updated_at") :
    dget (dset (dset fields "created_at" .tISODate) "updated_at" .tISODate) k =
      dget fields k := by
  rw [dget_dset_other _ _ _ _ (Ne.symm h2), dget_dset_other _ _ _ _ (Ne.symm h1)]

/-- C1 (counterexample): `filter` emits the reserved control key
`text_fields` verbatim — the code's skip list stops at `page_size` and does
not contain `relations` or `text_fields`, so the claim's reserved-key set is
wrong. -/
theorem c1_counterexample : ∃ q m',
    filter (Model.mk [] [] [] false "c") [("text_fields", .vStr "name")] = .ok (q, m') ∧
    dget q "text_fields" = some (.vStr "name") :=
  ⟨_, _, rfl, rfl⟩

/-- C1 (amended): for parameter maps with unique keys, over models that do
not declare the control names as fields, `filter` never emits a key from the
set it actually skips — `sort`, `sort_asc`, `sort_desc`, `page`,
`page_size` (`relations` and `text_fields` pass through) — and whenever the
parameter map contains a top-level `$or`, the result binds `$or` to exactly
the supplied value. -/
theorem filter_reserved_keys_and_or (m : Model) (params : Dict) (q : Dict) (m' : Model)
    (hnd : (dkeys params).Nodup)
    (hdecl : ∀ k ∈ ["sort", "sort_asc", "sort_desc", "page", "page_size", "$or"],
      dget m.fields k = none)
    (h : filter m params = .ok (q, m')) :
    (∀ k ∈ ["sort", "sort_asc", "sort_desc", "page", "page_size"], dget q k = none) ∧
    (∀ v, dget params "$or" = some v → dget q "$or" = some v) := by
  unfold filter at h
  rw [except_bind_ok_iff] at h
  obtain ⟨qpre, hloop, h⟩ := h
  simp only [except_pure_def, Except.ok.injEq, Prod.mk.injEq] at h
  obtain ⟨hq, _⟩ := h
  constructor
  · intro k hk
    have hor : "$or" ≠ k := by
      simp only [List.mem_cons, List.mem_singleton] at hk
      rcases hk with rfl | rfl | rfl | rfl | rfl | hk
      all_goals first | decide | cases hk
    have hqk : dget q k = dget qpre k := by
      rw [← hq]
      split
      · exact dget_dset_other qpre "$or" k _ hor
      · rfl
    rw [hqk]
    have hkc : k ≠ "created_at" := by
      simp only [List.mem_cons, List.mem_singleton] at hk
      rcases hk with rfl | rfl | rfl | rfl | rfl | hk
      all_goals first | decide | cases hk
    have hku : k ≠ "updated_at" := by
      simp only [List.mem_cons, List.mem_singleton] at hk
      rcases hk with rfl | rfl | rfl | rfl | rfl | hk
      all_goals first | decide | cases hk
    have hf : dget (dset (dset m.fields "created_at" .tISODate) "updated_at" .tISODate) k =
        none := by
      rw [dget_fields_aug m.fields k hkc hku]
      exact hdecl k (by simp only [List.mem_cons, List.mem_singleton] at hk ⊢; tauto)
    exact filterLoop_reserved _ params [] qpre k hf hk hloop
  · intro v hv
    have hforv : pget params "$or" = v := by
      simp [pget, hv]
    have hfor : dget (dset (dset m.fields "created_at" .tISODate) "updated_at" .tISODate)
        "$or" = none := by
      rw [dget_fields_aug m.fields "$or" (by decide) (by decide)]
      exact hdecl "$or" (by simp)
    rw [← hq]
    split
    · rw [dget_dset_self, hforv]
    · refine filterLoop_key_value _ params [] qpre "$or" v v hnd hv ?_ hloop
      intro query q' hs
      rw [filterStep_undeclared _ _ _ _ hfor (by decide)] at hs
      cases hs
      exact dget_dset_self query "$or" v

/-- C1 (witness): the amended theorem applied to a concrete model and
parameter map containing `sort` and `$or`. -/
theorem c1_witness : ∃ q m',
    filter (Model.mk [("name", .tString)] [] [] false "c")
      [("name", .vStr "x"), ("sort", .vInt 1), ("$or", .vList [.vDict []])] = .ok (q, m') ∧
    dget q "sort" = none ∧ dget q "$or" = some (.vList [.vDict []]) := by
  have h : filter (Model.mk [("name", .tString)] [] [] false "c")
      [("name", .vStr "x"), ("sort", .vInt 1), ("$or", .vList [.vDict []])] =
      .ok ([("name", .vDict [("$regex", .vStr ".*x.*"), ("$options", .vStr "ig")]),
            ("$or", .vList [.vDict []])],
           .mk [("name", .tString), ("created_at", .tISODate), ("updated_at", .tISODate)]
             [] [] false "c") := rfl
  have hmain := filter_reserved_keys_and_or _ _ _ _
    (by decide) (by decide) h
  exact ⟨_, _, h, hmain.1 "sort" (by simp), hmain.2 _ rfl⟩

end Odm

namespace Odm

theorem dkeys_dset {α : Type} (d : List (String × α)) (k : String) (v : α) :
    ∀ k', k' ∈ dkeys (dset d k v) ↔ k' = k ∨ k' ∈ dkeys d := by
  intro k'
  induction d with
  | nil => simp [dset, dkeys]
  | cons hd tl ih =>
    obtain ⟨k0, v0⟩ := hd
    by_cases h0 : k0 = k
    · subst h0
      simp [dset, dkeys]
    · simp only [dset, if_neg h0, dkeys, List.map_cons, List.mem_cons] at ih ⊢
      tauto

theorem dkeys_nodup_dset (d : Dict) (k : String) (v : Val) (h : (dkeys d).Nodup) :
    (dkeys (dset d k v)).Nodup := by
  induction d with
  | nil => simp [dset, dkeys]
  | cons hd tl ih =>
    obtain ⟨k0, v0⟩ := hd
    simp only [dkeys, List.map_cons, List.nodup_cons] at h
    by_cases h0 : k0 = k
    · have hd : dset ((k0, v0) :: tl) k v = (k0, v) :: tl := by
        simp [dset, h0]
      rw [hd]
      simp only [dkeys, List.map_cons, List.nodup_cons]
      exact ⟨h.1, h.2⟩
    · simp only [dset, if_neg h0, dkeys, List.map_cons, List.nodup_cons]
      refine ⟨?_, ih h.2⟩
      intro hmem
      rcases (dkeys_dset tl k v k0).mp hmem with he | hm
      · exact h0 he
      · exact h.1 hm

theorem sortFromFields_nodup (s : String) (dir : Int) :
    (dkeys (sortFromFields s dir)).Nodup := by
  unfold sortFromFields
  suffices hgen : ∀ (l : List String) (acc : Dict), (dkeys acc).Nodup →
      (dkeys (l.foldl (fun d f => dset d f (.vInt dir)) acc)).Nodup by
    exact hgen (pySplitComma s) [] (by simp [dkeys])
  intro l
  induction l with
  | nil => intro acc h; simpa using h
  | cons f rest ih =>
    intro acc h
    simp only [List.foldl_cons]
    exact ih (dset acc f (.vInt dir)) (dkeys_nodup_dset acc f _ h)

/-- C5 (counterexample): with both `sort_asc` and `sort_desc` supplied, the
result is the descending mapping built from `sort_desc` (the later branch
overwrites), and the `sort_asc` field does not appear at all — not the
ascending mapping the claim requires. -/
theorem c5_counterexample :
    sort_query [("sort_asc", .vStr "a"), ("sort_desc", .vStr "b")] =
      .ok [("b", .vInt (-1))] ∧
    dget [("b", Val.vInt (-1))] "a" = none :=
  ⟨rfl, rfl⟩

/-- C5 (amended): `sort_query` applies its parameters with precedence
`sort` over `sort_desc` over `sort_asc` over the default `{_id: 1}` — each
later truthy parameter overwrites the earlier one; in particular with both
`sort_asc` and `sort_desc` present the descending `sort_desc` ordering wins,
and with `sort` present `sort` wins. -/
theorem sort_query_precedence (params : Dict)
    (hasc : pyTruthy (pget params "sort_asc") = true →
      ∃ sa, pget params "sort_asc" = .vStr sa)
    (hdesc : pyTruthy (pget params "sort_desc") = true →
      ∃ sd, pget params "sort_desc" = .vStr sd) :
    (∀ n, pyTruthy (pget params "sort") = true → pyInt (pget params "sort") = .ok n →
      sort_query params = .ok [("_id", .vInt n)]) ∧
    (∀ sd, pyTruthy (pget params "sort") = false →
      pget params "sort_desc" = .vStr sd → sd ≠ "" →
      sort_query params = .ok (sortFromFields sd (-1))) ∧
    (∀ sa, pyTruthy (pget params "sort") = false →
      pyTruthy (pget params "sort_desc") = false →
      pget params "sort_asc" = .vStr sa → sa ≠ "" →
      sort_query params = .ok (sortFromFields sa 1)) ∧
    (pyTruthy (pget params "sort") = false →
      pyTruthy (pget params "sort_desc") = false →
      pyTruthy (pget params "sort_asc") = false →
      sort_query params = .ok [("_id", .vInt 1)]) := by
  refine ⟨?_, ?_, ?_, ?_⟩
  · intro n hs hn
    by_cases ha : pyTruthy (pget params "sort_asc") = true
    · obtain ⟨sa, hsa⟩ := hasc ha
      rw [hsa] at ha
      by_cases hd : pyTruthy (pget params "sort_desc") = true
      · obtain ⟨sd, hsd⟩ := hdesc hd
        rw [hsd] at hd
        simp [sort_query, ha, hd, hs, hsa, hsd, hn, bind, Except.bind,
          except_pure_def, dset]
      · simp [sort_query, ha, hd, hs, hsa, hn, bind, Except.bind, except_pure_def, dset]
    · by_cases hd : pyTruthy (pget params "sort_desc") = true
      · obtain ⟨sd, hsd⟩ := hdesc hd
        rw [hsd] at hd
        simp [sort_query, ha, hd, hs, hsd, hn, bind, Except.bind, except_pure_def, dset]
      · simp [sort_query, ha, hd, hs, hn, bind, Except.bind, except_pure_def, dset]
  · intro sd hs hsd hne
    have htd : pyTruthy (Val.vStr sd) = true := by
      simpa [pyTruthy] using hne
    by_cases ha : pyTruthy (pget params "sort_asc") = true
    · obtain ⟨sa, hsa⟩ := hasc ha
      rw [hsa] at ha
      simp [sort_query, ha, htd, hs, hsa, hsd, bind, Except.bind, except_pure_def,
        dict_copy_eq _ (sortFromFields_nodup sd (-1))]
    · simp [sort_query, ha, htd, hs, hsd, bind, Except.bind, except_pure_def,
        dict_copy_eq _ (sortFromFields_nodup sd (-1))]
  · intro sa hs hd hsa hne
    have hta : pyTruthy (Val.vStr sa) = true := by
      simpa [pyTruthy] using hne
    simp [sort_query, hta, hd, hs, hsa, bind, Except.bind, except_pure_def,
      dict_copy_eq _ (sortFromFields_nodup sa 1)]
  · intro hs hd ha
    simp [sort_query, ha, hd, hs, bind, Except.bind, except_pure_def]

/-- C5 (witness): the amended theorem applied with all three sort parameters
present — `sort` wins; and with only `sort_asc`/`sort_desc` — `sort_desc`
wins. -/
theorem c5_witness :
    sort_query [("sort", .vInt (-1)), ("sort_asc", .vStr "a"), ("sort_desc", .vStr "b")] =
      .ok [("_id", .vInt (-1))] ∧
    sort_query [("sort_asc", .vStr "a"), ("sort_desc", .vStr "b")] =
      .ok (sortFromFields "b" (-1)) := by
  constructor
  · exact (sort_query_precedence
      [("sort", .vInt (-1)), ("sort_asc", .vStr "a"), ("sort_desc", .vStr "b")]
      (fun _ => ⟨"a", rfl⟩) (fun _ => ⟨"b", rfl⟩)).1 (-1) (by decide) rfl
  · exact (sort_query_precedence
      [("sort_asc", .vStr "a"), ("sort_desc", .vStr "b")]
      (fun _ => ⟨"a", rfl⟩) (fun _ => ⟨"b", rfl⟩)).2.1 "b" (by decide) rfl (by decide)

end Odm

namespace Odm

/-- C6 (counterexample): with no `text_fields` anywhere (the code has no such
parameter at all), a declared String field still compiles to the
case-insensitive substring regex, not to the exact-equality predicate the
claim requires in that case. -/
theorem c6_counterexample : ∃ q m',
    filter (Model.mk [("name", .tString)] [] [] false "users")
      [("name", .vStr "ann")] = .ok (q, m') ∧
    dget q "name" = some (.vDict [("$regex", .vStr ".*ann.*"), ("$options", .vStr "ig")]) ∧
    (Val.vDict [("$regex", .vStr ".*ann.*"), ("$options", .vStr "ig")]) ≠ .vStr "ann" :=
  ⟨_, _, rfl, rfl, by simp⟩

/-- C6 (amended): for every declared String-typed field and string parameter
value, `filter` emits the case-insensitive substring regex
`{"$regex": ".*"+s+".*", "$options": "ig"}` unless the value already
contains `"$regex"` (then it passes through verbatim); no `text_fields`
input exists or is consulted, and exact equality is never emitted. -/
theorem filter_string_always_regex (m : Model) (params : Dict) (q : Dict) (m' : Model)
    (name : String) (s : String)
    (hnd : (dkeys params).Nodup)
    (hf : dget m.fields name = some .tString)
    (hn1 : name ≠ "created_at") (hn2 : name ≠ "updated_at") (hn3 : name ≠ "$or")
    (hget : dget params name = some (.vStr s))
    (h : filter m params = .ok (q, m')) :
    dget q name = some
      (if strContainsSub s "$regex" then .vStr s
       else .vDict [("$regex", .vStr (".*" ++ s ++ ".*")), ("$options", .vStr "ig")]) := by
  unfold filter at h
  rw [except_bind_ok_iff] at h
  obtain ⟨qpre, hloop, h⟩ := h
  simp only [except_pure_def, Except.ok.injEq, Prod.mk.injEq] at h
  obtain ⟨hq, _⟩ := h
  have hf2 : dget (dset (dset m.fields "created_at" .tISODate) "updated_at" .tISODate)
      name = some .tString := by
    rw [dget_fields_aug m.fields name hn1 hn2]
    exact hf
  have hpre : dget qpre name = some
      (if strContainsSub s "$regex" then Val.vStr s
       else .vDict [("$regex", .vStr (".*" ++ s ++ ".*")), ("$options", .vStr "ig")]) := by
    refine filterLoop_key_value _ params [] qpre name (.vStr s) _ hnd hget ?_ hloop
    intro query q' hs
    rw [filterStep_string _ _ _ _ hf2] at hs
    cases hs
    exact dget_dset_self query name _
  rw [← hq]
  split
  · rw [dget_dset_other qpre "$or" name _ (Ne.symm hn3)]
    exact hpre
  · exact hpre

/-- C6 (witness): the amended theorem applied to a concrete String field. -/
theorem c6_witness : ∃ q m',
    filter (Model.mk [("hobby", .tString)] [] [] false "users")
      [("hobby", .vStr "chess")] = .ok (q, m') ∧
    dget q "hobby" =
      some (.vDict [("$regex", .vStr ".*chess.*"), ("$options", .vStr "ig")]) := by
  have h : filter (Model.mk [("hobby", .tString)] [] [] false "users")
      [("hobby", .vStr "chess")] =
      .ok ([("hobby", .vDict [("$regex", .vStr ".*chess.*"), ("$options", .vStr "ig")])],
           .mk [("hobby", .tString), ("created_at", .tISODate), ("updated_at", .tISODate)]
             [] [] false "users") := rfl
  have hm := filter_string_always_regex
    (Model.mk [("hobby", .tString)] [] [] false "users") [("hobby", .vStr "chess")]
    _ _ "hobby" "chess" (by decide) rfl (by decide) (by decide) (by decide) rfl h
  have hc : strContainsSub "chess" "$regex" = false := rfl
  rw [hc] at hm
  exact ⟨_, _, h, by simpa using hm⟩

end Odm

namespace Odm

/-- C10: whenever `find` completes without raising, on an empty driver
result set it returns Python `None` — the post-processing loop over results
never executes and the function falls through — not an empty list. -/
theorem find_empty_returns_none (m : Model) (params : Dict) (fs : Bool)
    (relations ffpf : List String) (out : Option Val × Model)
    (h : find m params fs relations ffpf [] = .ok out) :
    out.1 = none := by
  unfold find at h
  rw [except_bind_ok_iff] at h
  obtain ⟨⟨criteria, m2⟩, hf, h⟩ := h
  dsimp only at h
  split at h
  · rw [except_bind_ok_iff] at h
    obtain ⟨u, hu, h⟩ := h
    have h2 : (Except.ok ((none : Option Val), m2) : Except PyErr (Option Val × Model)) =
        .ok out := h
    rw [← Except.ok.inj h2]
  · rw [except_bind_ok_iff] at h
    obtain ⟨sq, hsq, h⟩ := h
    rw [except_bind_ok_iff] at h
    obtain ⟨ag, hag, h⟩ := h
    have h2 : (Except.ok ((none : Option Val), m2) : Except PyErr (Option Val × Model)) =
        .ok out := h
    rw [← Except.ok.inj h2]

/-- C10 (witness): `find` on an empty result set for a concrete model. -/
theorem c10_witness : ∃ out,
    find (Model.mk [("name", .tString)] [] [] false "things") [] false [] [] [] =
      .ok out ∧ out.1 = none := by
  have h : find (Model.mk [("name", .tString)] [] [] false "things") [] false [] [] [] =
      .ok (none,
        .mk [("name", .tString), ("created_at", .tISODate), ("updated_at", .tISODate)]
          [] [] false "things") := rfl
  exact ⟨_, h, find_empty_returns_none _ _ _ _ _ _ h⟩

end Odm

namespace Odm

/-- Unfolding lemma for `dict_rep` (defined by well-founded recursion, so it
does not reduce definitionally). -/
theorem dict_rep_mk (f : List (String × FieldType)) (r : List (String × RelDesc))
    (p : List String) (s : Bool) (c : String) (params : Dict) :
    dict_rep (.mk f r p s c) params =
      (match dictRepFields (dset (dset f "created_at" .tISODate) "updated_at" .tISODate)
          params [] with
      | .error e => .error e
      | .ok q =>
        match dictRepRels r params q with
        | .error e => .error e
        | .ok q2 => .ok (q2, .mk (dset (dset f "created_at" .tISODate) "updated_at" .tISODate)
            r p s c)) := by
  rw [dict_rep.eq_def]

/-- Unfolding lemma for `dictRepRels` on the empty relation list. -/
theorem dictRepRels_nil (params : Dict) (query : Dict) :
    dictRepRels [] params query = .ok query := by
  rw [dictRepRels.eq_def]

/-- C9 (counterexample): calling `filter` changes the model's stored field
mapping (created_at/updated_at are inserted through the `fields =
self.fields` alias), `deleted_at` is never added — an undeclared
`deleted_at` parameter passes through `filter` as a raw string instead of
being coerced as a declared ISODate field — and `preparse_fields` silently
drops it. -/
theorem c9_counterexample :
    (∃ q m', filter (Model.mk [("name", .tString)] [] [] false "c") [] = .ok (q, m') ∧
       m'.fields ≠ (Model.mk [("name", .tString)] [] [] false "c").fields ∧
       dget m'.fields "deleted_at" = none) ∧
    (∃ q m', filter (Model.mk [("name", .tString)] [] [] false "c")
        [("deleted_at", .vStr "2020-01-01T00:00:00")] = .ok (q, m') ∧
       dget q "deleted_at" = some (.vStr "2020-01-01T00:00:00")) ∧
    preparse_fields (Model.mk [("name", .tString)] [] [] false "c")
        [("deleted_at", .vStr "2020-01-01T00:00:00")] = .ok [] := by
  exact ⟨⟨_, _, rfl, by decide, rfl⟩, ⟨_, _, rfl, rfl⟩, rfl⟩

/-- C9 (amended): the registry is not immutable — `filter` and `dict_rep`
mutate the stored field mapping in place, inserting `created_at` and
`updated_at` as ISODate; `deleted_at` is never inserted, so the
registry-consuming operations treat it as declared only if the model itself
declares it. -/
theorem registry_mutated_not_immutable (m : Model) (params : Dict) :
    (∀ q m', filter m params = .ok (q, m') →
      m'.fields = dset (dset m.fields "created_at" .tISODate) "updated_at" .tISODate ∧
      dget m'.fields "deleted_at" = dget m.fields "deleted_at") ∧
    (∀ q m', dict_rep m params = .ok (q, m') →
      m'.fields = dset (dset m.fields "created_at" .tISODate) "updated_at" .tISODate ∧
      dget m'.fields "deleted_at" = dget m.fields "deleted_at") := by
  constructor
  · intro q m' h
    unfold filter at h
    rw [except_bind_ok_iff] at h
    obtain ⟨qpre, hloop, h⟩ := h
    simp only [except_pure_def, Except.ok.injEq, Prod.mk.injEq] at h
    obtain ⟨_, hm⟩ := h
    rw [← hm]
    exact ⟨rfl, dget_fields_aug m.fields "deleted_at" (by decide) (by decide)⟩
  · intro q m' h
    obtain ⟨f, r, p, sd, c⟩ := m
    rw [dict_rep_mk] at h
    cases hA : dictRepFields (dset (dset f "created_at" .tISODate) "updated_at" .tISODate)
        params [] with
    | error e => rw [hA] at h; cases h
    | ok q1 =>
      rw [hA] at h
      dsimp only at h
      cases hB : dictRepRels r params q1 with
      | error e =>
        rw [hB] at h
        simp at h
      | ok q2 =>
        rw [hB] at h
        dsimp only at h
        simp only [Except.ok.injEq, Prod.mk.injEq] at h
        obtain ⟨_, hm⟩ := h
        rw [← hm]
        exact ⟨rfl,
          dget_fields_aug (Model.mk f r p sd c).fields "deleted_at" (by decide) (by decide)⟩

/-- C9 (witness): the amended theorem applied to a concrete model. -/
theorem c9_witness :
    ∃ m1 m2,
      filter (Model.mk [("name", .tString)] [] [] false "c") [] = .ok ([], m1) ∧
      m1.fields = [("name", .tString), ("created_at", .tISODate), ("updated_at", .tISODate)] ∧
      dget m1.fields "deleted_at" = none ∧
      dict_rep (Model.mk [("name", .tString)] [] [] false "c") [] = .ok ([], m2) ∧
      m2.fields = [("name", .tString), ("created_at", .tISODate), ("updated_at", .tISODate)] := by
  have h1 : filter (Model.mk [("name", .tString)] [] [] false "c") [] =
      .ok ([], .mk [("name", .tString), ("created_at", .tISODate), ("updated_at", .tISODate)]
        [] [] false "c") := rfl
  have h2 : dict_rep (Model.mk [("name", .tString)] [] [] false "c") [] =
      .ok ([], .mk [("name", .tString), ("created_at", .tISODate), ("updated_at", .tISODate)]
        [] [] false "c") := by
    rw [dict_rep_mk]
    simp [dictRepFields, dictRepRels_nil, dset, dget]
  have hA := (registry_mutated_not_immutable
    (Model.mk [("name", .tString)] [] [] false "c") []).1 _ _ h1
  have hB := (registry_mutated_not_immutable
    (Model.mk [("name", .tString)] [] [] false "c") []).2 _ _ h2
  exact ⟨_, _, h1, by simpa [Model.fields, dset] using hA.1, hA.2, h2,
    by simpa [Model.fields, dset] using hB.1⟩

end Odm

namespace Odm

/-- A related kind: `items` with `_id`/`sku`. -/
def itemModel : Model := .mk [("_id", .tObjectId), ("sku", .tString)] [] [] false "items"

/-- A `hasMany` relation descriptor from orders to items with
`cascade = ["CREATE", "UPDATE"]`. -/
def rdItems : RelDesc := .mk .hasMany itemModel "_id" "order_id" "" "" "" ["CREATE", "UPDATE"] none

/-- An order kind with one `hasMany` relation `items`. -/
def orderModel : Model :=
  .mk [("_id", .tObjectId), ("customer", .tString)] [("items", rdItems)] [] false "orders"

/-- C3 (code_bug): for a `hasMany` relation, the projection stage emitted by
`relationships` filters the relation array with cond
`{"$ifNull": ["$$items.deleted_at", true]}`.  Under MongoDB `$filter`/
`$ifNull` semantics that cond evaluates to the `deleted_at` value itself
when it is present — and a BSON date is truthy — so an element whose
`deleted_at` is set is KEPT, not removed: evaluating the emitted projection
entry on a two-element array (one soft-deleted, one live) keeps both.  The
claim (and the spec's soft-delete invariant) requires the soft-deleted
element to be excluded. -/
theorem c3_softdelete_filter_keeps_deleted :
    ∃ proj fspec,
      relationships orderModel [] ["items"] [] [] =
        .ok [.vDict [("$match", .vDict [])],
             .vDict [("$lookup", .vDict [("from", .vStr "items"), ("localField", .vStr "_id"),
               ("foreignField", .vStr "order_id"), ("as", .vStr "items")])],
             .vDict [("$project", .vDict proj)]] ∧
      dget proj "items" = some fspec ∧
      mongoApplySoftDeleteFilter fspec
          [[("sku", .vStr "A"), ("deleted_at", .vDate ⟨2020, 1, 1, 0, 0, 0⟩)],
           [("sku", .vStr "B")]] =
        some [[("sku", .vStr "A"), ("deleted_at", .vDate ⟨2020, 1, 1, 0, 0, 0⟩)],
              [("sku", .vStr "B")]] :=
  ⟨_, _, rfl, rfl, rfl⟩

/-- Driver outcomes in which every bulk `execute()` raises. -/
def failingBulkDb : SaveDb :=
  ⟨.vOid "aaaaaaaaaaaaaaaaaaaaaaaa", fun _ => ⟨.error (), .error (), .error (), []⟩⟩

/-- C4 (code_bug): when the bulk write against the related collection raises,
`save_collection`'s bare `except` does swallow that exception, but the very
next line reads the never-assigned local `result` (`result["upserted"]`),
raising an UnboundLocalError that propagates out of `save`: the parent save
does NOT return the saved wire representation.  Evaluated here on a concrete
nested `hasMany` save whose bulk write fails. -/
theorem c4_save_bulk_failure_propagates :
    save orderModel
      [("customer", .vStr "Ann"), ("items", .vList [.vDict [("sku", .vStr "A1")]])]
      ⟨2020, 1, 1, 0, 0, 0⟩ failingBulkDb = .error .unboundLocal := rfl

end Odm

namespace Odm

theorem asciiLower_eq_self (s : String) (h : ∀ c ∈ s.data, ¬('A' ≤ c ∧ c ≤ 'Z')) :
    asciiLower s = s := by
  have hgen : ∀ l : List Char, (∀ c ∈ l, ¬('A' ≤ c ∧ c ≤ 'Z')) →
      l.map (fun c => if 'A' ≤ c ∧ c ≤ 'Z' then Char.ofNat (c.toNat + 32) else c) = l := by
    intro l hl
    induction l with
    | nil => rfl
    | cons c rest ih =>
      rw [List.map_cons, if_neg (hl c (by simp)), ih (fun c2 hc => hl c2 (by simp [hc]))]
  unfold asciiLower
  rw [hgen s.data h]

/-- C7 (counterexample): an uppercase hex string is a syntactically valid
identifier accepted by the wire→storage coercion, but the storage→wire
representation is the lowercased canonical form, so the round trip is not
the identity on it. -/
theorem c7_counterexample :
    preparse_fields (Model.mk [("x", .tObjectId)] [] [] false "c")
        [("x", .vStr "ABCDEF0123456789ABCDEF01")] =
      .ok [("x", .vOid "abcdef0123456789abcdef01")] ∧
    (∃ m', dict_rep (Model.mk [("x", .tObjectId)] [] [] false "c")
        [("x", .vOid "abcdef0123456789abcdef01")] =
      .ok ([("x", .vStr "abcdef0123456789abcdef01")], m')) ∧
    "abcdef0123456789abcdef01" ≠ "ABCDEF0123456789ABCDEF01" := by
  refine ⟨rfl,
    ⟨.mk [("x", .tObjectId), ("created_at", .tISODate), ("updated_at", .tISODate)]
      [] [] false "c", ?_⟩, by decide⟩
  rw [dict_rep_mk]
  simp [dictRepFields, dictRepField, dictRepRels_nil, dset, dget, pyStr]

/-- C7 (amended): for every declared ObjectId field and every syntactically
valid identifier string with no uppercase hex digits, the storage→wire
representation of the wire→storage coercion is the identity; uppercase
inputs are instead canonicalized to lowercase (see the counterexample). -/
theorem oid_roundtrip_lowercase (f coll : String) (s : String)
    (hf1 : f ≠ "created_at") (hf2 : f ≠ "updated_at")
    (hv : validOidString s = true)
    (hl : ∀ c ∈ s.data, ¬('A' ≤ c ∧ c ≤ 'Z')) :
    ∃ m', preparse_fields (Model.mk [(f, .tObjectId)] [] [] false coll) [(f, .vStr s)] =
        .ok [(f, .vOid s)] ∧
      dict_rep (Model.mk [(f, .tObjectId)] [] [] false coll) [(f, .vOid s)] =
        .ok ([(f, .vStr s)], m') := by
  have hal : asciiLower s = s := asciiLower_eq_self s hl
  refine ⟨.mk (dset (dset [(f, .tObjectId)] "created_at" .tISODate) "updated_at" .tISODate)
    [] [] false coll, ?_, ?_⟩
  · simp [preparse_fields, preparseLoop, dget, pyObjectId, hv, hal, dset, Model.fields,
      bind, Except.bind, except_pure_def]
  · rw [dict_rep_mk]
    simp [dictRepFields, dictRepField, dictRepRels_nil, dset, dget, pyStr, hf1, hf2]

/-- C7 (witness): the amended round-trip theorem at a concrete lowercase
identifier string. -/
theorem c7_witness :
    ∃ m', preparse_fields (Model.mk [("x", .tObjectId)] [] [] false "c")
        [("x", .vStr "aaaabbbbccccddddeeeeffff")] =
        .ok [("x", .vOid "aaaabbbbccccddddeeeeffff")] ∧
      dict_rep (Model.mk [("x", .tObjectId)] [] [] false "c")
        [("x", .vOid "aaaabbbbccccddddeeeeffff")] =
        .ok ([("x", .vStr "aaaabbbbccccddddeeeeffff")], m') :=
  oid_roundtrip_lowercase "x" "c" "aaaabbbbccccddddeeeeffff"
    (by decide) (by decide) (by decide) (by decide)

end Odm

namespace Odm

/-- A stage contributed by the relation loop: a single-key `$lookup`,
`$unwind` or `$group` document. -/
def isRelStage (v : Val) : Bool :=
  match v with
  | .vDict [(k, _)] => k == "$lookup" || k == "$unwind" || k == "$group"
  | _ => false

theorem relStageFor_stages (i : String) (rd : RelDesc) (proj : Dict) :
    ∀ st ∈ (relStageFor i rd proj).1, isRelStage st = true := by
  obtain ⟨rt, rm, lk, fk, jc, ljk, fjk, cas, sdf⟩ := rd
  intro st hst
  unfold relStageFor at hst
  by_cases hmm : rt = .manyToMany
  · simp only [hmm, if_pos rfl, reduceIte] at hst
    simp at hst
    rcases hst with rfl | rfl | rfl | rfl | rfl <;> rfl
  · simp only [if_neg hmm] at hst
    simp at hst
    rw [hst]
    rfl

theorem relLoop_stages (rels : List (String × RelDesc)) (keys : List String) (proj : Dict) :
    ∀ st ∈ (relLoop rels keys proj).1, isRelStage st = true := by
  induction rels generalizing proj with
  | nil =>
    intro st hst
    simp [relLoop] at hst
  | cons e rest ih =>
    obtain ⟨i, rd⟩ := e
    intro st hst
    unfold relLoop at hst
    by_cases hc : keys.contains i
    · rw [if_pos hc] at hst
      rcases hsf : relStageFor i rd proj with ⟨sts, p2⟩
      rcases hrl : relLoop rest keys p2 with ⟨strest, p3⟩
      rw [hsf] at hst
      dsimp only at hst
      rw [hrl] at hst
      dsimp only at hst
      simp only [List.mem_append] at hst
      rcases hst with hst | hst
      · have := relStageFor_stages i rd proj st
        rw [hsf] at this
        exact this hst
      · have := ih p2 st
        rw [hrl] at this
        exact this hst
    · rw [if_neg hc] at hst
      exact ih proj st hst

theorem relLoop_congr (rels : List (String × RelDesc)) (k1 k2 : List String)
    (h : ∀ x, k1.contains x = k2.contains x) (proj : Dict) :
    relLoop rels k1 proj = relLoop rels k2 proj := by
  induction rels generalizing proj with
  | nil => rfl
  | cons e rest ih =>
    obtain ⟨i, rd⟩ := e
    unfold relLoop
    rw [h i]
    by_cases hc : k2.contains i
    · rw [if_pos hc, if_pos hc]
      rcases hsf : relStageFor i rd proj with ⟨sts, p2⟩
      dsimp only
      rw [ih p2]
    · rw [if_neg hc, if_neg hc]
      exact ih proj

theorem mem_insortStr (x y : String) (l : List String) :
    y ∈ insortStr x l ↔ y = x ∨ y ∈ l := by
  induction l with
  | nil => simp [insortStr]
  | cons hd tl ih =>
    by_cases h : x ≤ hd
    · simp [insortStr, h]
    · simp [insortStr, h, ih]
      tauto

theorem mem_pySortStrs (x : String) (l : List String) :
    x ∈ pySortStrs l ↔ x ∈ l := by
  unfold pySortStrs
  induction l with
  | nil => simp
  | cons hd tl ih =>
    simp only [List.foldr_cons, mem_insortStr, List.mem_cons, ih]

theorem contains_congr (l1 l2 : List String) (h : ∀ x, x ∈ l1 ↔ x ∈ l2) (x : String) :
    l1.contains x = l2.contains x := by
  show List.elem x l1 = List.elem x l2
  cases hc1 : List.elem x l1 with
  | true =>
    have hm := (h x).mp (List.elem_iff.mp hc1)
    rw [List.elem_eq_true_of_mem hm]
  | false =>
    cases hc2 : List.elem x l2 with
    | false => rfl
    | true =>
      have hm := (h x).mpr (List.elem_iff.mp hc2)
      rw [List.elem_eq_true_of_mem hm] at hc1
      cases hc1

end Odm

namespace Odm

/-- C2: the pipeline produced by `relationships` has the fixed stage order —
one `$match` stage first, then (when a pagination dict with a truthy sort
and integer page/page_size is supplied) `$sort`, `$skip` (page_size*page),
`$limit` in that order, then the relation lookup/unwind/group stages for the
requested relations, then the `$project` stage, then (when paginated) a
final `$sort` stage; without pagination it is match, relation stages,
projection.  The output depends on the requested relation names only through
membership (`key_array.sort()` runs first), so any reordering or duplication
of the names yields the same pipeline. -/
theorem relationships_stage_order (m : Model) (criteria : Dict) (keys ffpf : List String)
    (pg : Dict) (sv : Val) (a b : Int)
    (hs : dget pg "sort" = some sv) (hts : pyTruthy sv = true)
    (hp : dget pg "page" = some (.vInt a)) (hps : dget pg "page_size" = some (.vInt b)) :
    (∃ mid proj,
      relationships m criteria keys ffpf pg =
        .ok ([Val.vDict [("$match", .vDict criteria)]] ++
          [Val.vDict [("$sort", sv)], .vDict [("$skip", .vInt (b * a))],
           .vDict [("$limit", .vInt b)]] ++
          mid ++ [Val.vDict [("$project", .vDict proj)], .vDict [("$sort", sv)]]) ∧
      ∀ st ∈ mid, isRelStage st = true) ∧
    (∃ mid proj,
      relationships m criteria keys ffpf [] =
        .ok ([Val.vDict [("$match", .vDict criteria)]] ++ mid ++
          [Val.vDict [("$project", .vDict proj)]]) ∧
      ∀ st ∈ mid, isRelStage st = true) ∧
    (∀ keys2, (∀ x, x ∈ keys2 ↔ x ∈ keys) →
      relationships m criteria keys2 ffpf pg = relationships m criteria keys ffpf pg) := by
  have hne : pg.isEmpty = false := by
    cases pg with
    | nil => cases hs
    | cons hd tl => rfl
  have hpget : pget pg "sort" = sv := by
    simp [pget, hs]
  refine ⟨?_, ?_, ?_⟩
  · rcases hr : relLoop m.relations (pySortStrs keys) (projFields m ffpf) with ⟨mid, projF⟩
    refine ⟨mid, projF, ?_, ?_⟩
    · unfold relationships
      simp [hne, hs, hps, hp, hts, hpget, hr, bind, Except.bind, except_pure_def]
    · intro st hst
      have hall := relLoop_stages m.relations (pySortStrs keys) (projFields m ffpf) st
      rw [hr] at hall
      exact hall hst
  · rcases hr : relLoop m.relations (pySortStrs keys) (projFields m ffpf) with ⟨mid, projF⟩
    refine ⟨mid, projF, ?_, ?_⟩
    · unfold relationships
      simp [hr, bind, Except.bind, except_pure_def, pget, dget, pyTruthy]
    · intro st hst
      have hall := relLoop_stages m.relations (pySortStrs keys) (projFields m ffpf) st
      rw [hr] at hall
      exact hall hst
  · intro keys2 hiff
    have hc : ∀ x, (pySortStrs keys2).contains x = (pySortStrs keys).contains x := by
      intro x
      refine contains_congr _ _ ?_ x
      intro y
      rw [mem_pySortStrs, mem_pySortStrs]
      exact hiff y
    have hrl := relLoop_congr m.relations (pySortStrs keys2) (pySortStrs keys) hc
      (projFields m ffpf)
    unfold relationships
    dsimp only
    rw [hrl]

/-- C2 (witness): the stage-order theorem applied to the concrete order/items
model with a concrete pagination dict. -/
theorem c2_witness :
    ∃ mid proj,
      relationships orderModel [("x", .vInt 1)] ["items"] []
          [("sort", .vDict [("_id", .vInt 1)]), ("page", .vInt 2), ("page_size", .vInt 10)] =
        .ok ([Val.vDict [("$match", .vDict [("x", .vInt 1)])]] ++
          [Val.vDict [("$sort", .vDict [("_id", .vInt 1)])],
           .vDict [("$skip", .vInt 20)], .vDict [("$limit", .vInt 10)]] ++
          mid ++ [Val.vDict [("$project", .vDict proj)],
            .vDict [("$sort", .vDict [("_id", .vInt 1)])]]) ∧
      ∀ st ∈ mid, isRelStage st = true :=
  (relationships_stage_order orderModel [("x", .vInt 1)] ["items"] []
    [("sort", .vDict [("_id", .vInt 1)]), ("page", .vInt 2), ("page_size", .vInt 10)]
    (.vDict [("_id", .vInt 1)]) 2 10 rfl (by decide) rfl rfl).1

end Odm

namespace Odm

theorem w_bind_def {α β : Type} (x : W α) (f : α → W β) : x >>= f = wBind x f := rfl

theorem w_pure_def {α : Type} (a : α) : (pure a : W α) = wPure a := rfl

/-- A soft-delete model of users with no relations. -/
def mSoftUsers : Model := .mk [("_id", .tObjectId), ("name", .tString)] [] [] true "users"

/-- Driver outcomes for a `remove` whose fetch finds nothing. -/
def removeDbEmpty : RemoveDb := ⟨[], [], .vNone, .vNone, .vNone, .vNone, .vInt 1⟩

/-- C8 (counterexample): soft-delete `remove` of an absent record fails with
an unhandled AttributeError — `first` returns `None` and
`preparse_fields(None)` dereferences it — not with a `DocumentNotFound`,
which does not exist anywhere in the code; no write is issued. -/
theorem c8_counterexample :
    wRun (remove mSoftUsers "aaaaaaaaaaaaaaaaaaaaaaaa" false
      ⟨2020, 1, 1, 0, 0, 0⟩ removeDbEmpty) = ([], .error .attributeError) := rfl

/-- C8 (amended): for a soft-delete-enabled kind with no force flag and no
DELETE-cascading relations: when the fetch finds no current record, the
operation fails before any write — but with an unhandled AttributeError
(coercing `None`), there being no `DocumentNotFound` in the code; otherwise
the fetched record is coerced, `deleted_at` is stamped to now, the
identifier key is stripped, and exactly one update-by-identifier `$set`
write is issued, `remove` returning the driver's update result unchanged
(not a computed boolean). -/
theorem remove_soft_delete_path (m : Model) (idStr : String) (now : DT) (db : RemoveDb)
    (hnc : ∀ kv ∈ m.relations, check_cascade_policy kv.2.cascade ["DELETE"] = false)
    (hsd : m.softDeletes = true) :
    (∀ m2, first m [("_id", .vStr idStr)] [] db.mainDocs = .ok (none, m2) →
      wRun (remove m idStr false now db) = ([], .error .attributeError)) ∧
    (∀ m2 cache0 pd o,
      first m [("_id", .vStr idStr)] [] db.mainDocs = .ok (some (.vDict cache0), m2) →
      preparse_fields m2 cache0 = .ok pd →
      dhas (dset pd "deleted_at" (.vDate now)) "_id" = true →
      pyObjectId (.vStr idStr) = .ok o →
      wRun (remove m idStr false now db) =
        ([.updateSet m.collection_name o (ddel (dset pd "deleted_at" (.vDate now)) "_id")],
         .ok db.updateRes)) := by
  have hrm : m.relations.foldl (fun acc kv =>
      if check_cascade_policy kv.2.cascade ["DELETE"] then acc ++ [kv.1] else acc)
      ([] : List String) = [] := by
    have hgen : ∀ (rels : List (String × RelDesc)),
        (∀ kv ∈ rels, check_cascade_policy kv.2.cascade ["DELETE"] = false) →
        ∀ acc : List String, rels.foldl (fun acc kv =>
          if check_cascade_policy kv.2.cascade ["DELETE"] then acc ++ [kv.1] else acc)
          acc = acc := by
      intro rels hr
      induction rels with
      | nil => intro acc; rfl
      | cons kv rest ih =>
        intro acc
        simp only [List.foldl_cons, hr kv (by simp), if_false, Bool.false_eq_true]
        exact ih (fun kv2 h2 => hr kv2 (by simp [h2])) acc
    exact hgen m.relations hnc []
  constructor
  · intro m2 h1
    simp [remove, wRun, hrm, h1, hsd, w_bind_def, w_pure_def,
      wBind, wPure, wLift, wErr, wWrite]
  · intro m2 cache0 pd o h1 h2 hhas ho
    simp [remove, wRun, hrm, h1, h2, hhas, ho, hsd, w_bind_def, w_pure_def,
      wBind, wPure, wLift, wErr, wWrite]

end Odm

namespace Odm

/-- C8 (witness): the amended theorem applied to a concrete soft-delete model
with one fetched record — one `$set` update-by-identifier is issued with
`deleted_at` stamped and `_id` stripped, and the driver's update result is
returned. -/
theorem c8_witness :
    wRun (remove mSoftUsers "aaaaaaaaaaaaaaaaaaaaaaaa" false ⟨2020, 1, 1, 0, 0, 0⟩
      ⟨[], [.vDict [("_id", .vOid "aaaaaaaaaaaaaaaaaaaaaaaa"), ("name", .vStr "Bob")]],
       .vNone, .vNone, .vNone, .vNone, .vInt 1⟩) =
    ([.updateSet "users" (.vOid "aaaaaaaaaaaaaaaaaaaaaaaa")
        [("name", .vStr "Bob"), ("deleted_at", .vDate ⟨2020, 1, 1, 0, 0, 0⟩)]],
     .ok (.vInt 1)) := by
  have hdr : dict_rep
      (Model.mk [("_id", .tObjectId), ("name", .tString), ("created_at", .tISODate),
        ("updated_at", .tISODate)] [] [] true "users")
      [("_id", .vOid "aaaaaaaaaaaaaaaaaaaaaaaa"), ("name", .vStr "Bob")] =
      .ok ([("_id", .vStr "aaaaaaaaaaaaaaaaaaaaaaaa"), ("name", .vStr "Bob")],
        .mk [("_id", .tObjectId), ("name", .tString), ("created_at", .tISODate),
          ("updated_at", .tISODate)] [] [] true "users") := by
    rw [dict_rep_mk]
    simp [dictRepFields, dictRepField, dictRepRels_nil, dset, dget, pyStr]
  have hvo : validOidString "aaaaaaaaaaaaaaaaaaaaaaaa" = true := rfl
  have hal : asciiLower "aaaaaaaaaaaaaaaaaaaaaaaa" = "aaaaaaaaaaaaaaaaaaaaaaaa" := rfl
  have h1 : first mSoftUsers [("_id", .vStr "aaaaaaaaaaaaaaaaaaaaaaaa")] []
      [.vDict [("_id", .vOid "aaaaaaaaaaaaaaaaaaaaaaaa"), ("name", .vStr "Bob")]] =
      .ok (some (.vDict [("_id", .vStr "aaaaaaaaaaaaaaaaaaaaaaaa"), ("name", .vStr "Bob")]),
        .mk [("_id", .tObjectId), ("name", .tString), ("created_at", .tISODate),
          ("updated_at", .tISODate)] [] [] true "users") := by
    simp [first, find, filter, filterLoop, filterStep, sort_query, mSoftUsers, pget, dget,
      dset, pyTruthy, pyObjectId, hvo, hal, hdr, cleanValList, clean_protected_fields,
      cleanDict, cleanRels, Model.relations, Model.protected_fields, Model.fields,
      Model.softDeletes, Model.collection_name, bind, Except.bind,
      except_pure_def, Except.map, List.foldlM]
  have h2 : preparse_fields
      (Model.mk [("_id", .tObjectId), ("name", .tString), ("created_at", .tISODate),
        ("updated_at", .tISODate)] [] [] true "users")
      [("_id", .vStr "aaaaaaaaaaaaaaaaaaaaaaaa"), ("name", .vStr "Bob")] =
      .ok [("_id", .vOid "aaaaaaaaaaaaaaaaaaaaaaaa"), ("name", .vStr "Bob")] := rfl
  have hmain := (remove_soft_delete_path mSoftUsers "aaaaaaaaaaaaaaaaaaaaaaaa"
    ⟨2020, 1, 1, 0, 0, 0⟩
    ⟨[], [.vDict [("_id", .vOid "aaaaaaaaaaaaaaaaaaaaaaaa"), ("name", .vStr "Bob")]],
     .vNone, .vNone, .vNone, .vNone, .vInt 1⟩
    (by simp [mSoftUsers, Model.relations]) rfl).2
    _ _ _ _ h1 h2 rfl rfl
  simpa [mSoftUsers, Model.collection_name, dset, ddel] using hmain

end Odm
